import Mathlib

/-!
# ip2asn: range table loader and lookup

A shallow embedding of `ip2asn.go` (package `ip2asn`): the tab-separated
line parser `parseTSV`, the loader `OpenReader`, and the binary-search
lookup `Map.ASofIP`, together with the parts of the Go standard library
the code leans on (`net/netip` address order, `sort.Search`,
`bytes.IndexByte`, `bufio.Reader`).

Conventions
* a Go `[]byte` / `string` is a `List Byte`, a byte being a natural number;
* a Go `map[int]string` is a function `Int → Option (List Byte)`;
* a Go `(T, error)` result is an `Except Error T`;
* an index expression that would panic yields `none`.
-/

namespace ip2asn

/-- One byte of a Go `[]byte` or `string`. -/
abbrev Byte := Nat

/-- The bytes of an ASCII string literal. -/
def str (s : String) : List Byte := s.toList.map Char.toNat

/-! ## net/netip: addresses and their order -/

/-- The `z` field of `netip.Addr`: `z0` for the zero Addr, `z4` for IPv4,
`z6 zone` for IPv6 (`z6noz` is `z6 []`). -/
inductive AddrZ where
  | z0
  | z4
  | z6 (zone : List Byte)
deriving DecidableEq, Repr

/-- The value type `netip.Addr`: a 128-bit address (`hi`, `lo`) and the family/zone tag. -/
structure Addr where
  hi : Nat
  lo : Nat
  z : AddrZ
deriving DecidableEq, Repr

/-- Go string comparison `a < b`: bytewise lexicographic. -/
def strLess : List Byte → List Byte → Bool
  | [], [] => false
  | [], _ :: _ => true
  | _ :: _, [] => false
  | a :: as, b :: bs => decide (a < b) || (decide (a = b) && strLess as bs)

/-- The method `Addr.BitLen`. -/
def Addr.BitLen (ip : Addr) : Nat :=
  match ip.z with
  | .z0 => 0
  | .z4 => 32
  | .z6 _ => 128

/-- The method `Addr.Is6`. -/
def Addr.Is6 (ip : Addr) : Bool :=
  decide (ip.z ≠ .z0) && decide (ip.z ≠ .z4)

/-- The method `Addr.Zone`. -/
def Addr.Zone (ip : Addr) : List Byte :=
  match ip.z with
  | .z6 zone => zone
  | _ => []

/-- The method `Addr.Compare`: by bit length, then `hi`, then `lo`, then (IPv6 only) zone. -/
def Addr.Compare (ip ip2 : Addr) : Int :=
  let f1 := ip.BitLen
  let f2 := ip2.BitLen
  if f1 < f2 then -1
  else if f1 > f2 then 1
  else if ip.hi < ip2.hi then -1
  else if ip.hi > ip2.hi then 1
  else if ip.lo < ip2.lo then -1
  else if ip.lo > ip2.lo then 1
  else if ip.Is6 then
    let za := ip.Zone
    let zb := ip2.Zone
    if strLess za zb then -1
    else if strLess zb za then 1
    else 0
  else 0

/-- The method `Addr.Less`: `ip.Compare(ip2) == -1`. -/
def Addr.Less (ip ip2 : Addr) : Bool := ip.Compare ip2 == -1

/-- The relation `a <= b` of netip's address order: `a.Compare(b) <= 0`. -/
def Addr.le (a b : Addr) : Prop := a.Compare b ≤ 0

instance (a b : Addr) : Decidable (a.le b) := by unfold Addr.le; infer_instance

/-! ## sort.Search -/

/-- The loop of `sort.Search` on the window `[i, j)`; `fuel` bounds the iterations
(`j - i` is enough, see `searchLoop_spec`). The predicate is only defined on valid indices. -/
def searchLoop (n : Nat) (f : Fin n → Bool) : Nat → (i j : Nat) → j ≤ n → Nat
  | 0, i, _, _ => i
  | fuel + 1, i, j, hj =>
    if hij : i < j then
      let h := (i + j) / 2
      if !f ⟨h, by omega⟩ then searchLoop n f fuel (h + 1) j hj
      else searchLoop n f fuel i h (by omega)
    else i

/-- The function `sort.Search(n, f)`. -/
def Search (n : Nat) (f : Fin n → Bool) : Nat := searchLoop n f n 0 n (Nat.le_refl n)

/-! ## The table -/

/-- The struct `rec`. -/
structure rec where
  startIP : Addr
  endIP : Addr
  asn : Int
deriving DecidableEq, Repr

/-- The struct `Map`. -/
structure Map where
  asName : Int → Option (List Byte)
  asCountry : Int → Option (List Byte)
  recs : List rec

/-- The map literal `&Map{asName: map[int]string{}, asCountry: map[int]string{}}`. -/
def Map.empty : Map := ⟨fun _ => none, fun _ => none, []⟩

/-- The method `Map.ASName`: a missing key reads as the empty string. -/
def Map.ASName (m : Map) (as : Int) : List Byte := (m.asName as).getD []

/-- The method `Map.ASCountry`. -/
def Map.ASCountry (m : Map) (as : Int) : List Byte := (m.asCountry as).getD []

/-- The method `Map.recIndexHasIP`; `none` is the index-out-of-range panic of `m.recs[i]`. -/
def Map.recIndexHasIP (m : Map) (i : Int) (ip : Addr) : Option Int :=
  if i < 0 then some 0
  else
    match m.recs[i.toNat]? with
    | none => none
    | some rec =>
      if rec.endIP.Less ip then some 0
      else if ip.Less rec.startIP then some 0
      else some rec.asn

/-- The method `Map.ASofIP`. -/
def Map.ASofIP (m : Map) (ip : Addr) : Option Int :=
  let cand := Search m.recs.length (fun i => ip.Less (m.recs.get i).startIP)
  m.recIndexHasIP ((cand : Int) - 1) ip

/-! ## Errors and the pieces of the standard library used by the loader -/

/-- The error values `OpenReader` can return. -/
inductive Error where
  /-- The value `io.EOF`. -/
  | EOF
  /-- The value `bufio.ErrBufferFull`. -/
  | ErrBufferFull
  /-- Any other error of an underlying reader (the gzip reader). -/
  | reader (code : Nat)
  /-- The error `fmt.Errorf("short line: %q", line)`. -/
  | shortLine (line : List Byte)
  /-- The error `fmt.Errorf("bogus ASN %q for line %q", asnB, line)`. -/
  | bogusASN (asnB line : List Byte)
  /-- The error `fmt.Errorf("bogus IP %q for line %q", ipB, line)`. -/
  | bogusIP (ipB line : List Byte)
deriving DecidableEq, Repr

/-- The function `bytes.IndexByte`; `none` is the result `-1`. -/
def IndexByte : List Byte → Byte → Option Nat
  | [], _ => none
  | b :: bs, c => if b = c then some 0 else (IndexByte bs c).map (· + 1)

/-- The size of the buffer `bufio.NewReader` allocates (`defaultBufSize`), for a
source that is not itself a `bufio.Reader`. -/
def defaultBufSize : Nat := 4096

/-- A `bufio.Reader` over its source: the bytes not yet consumed, and the error the
source reports once they are exhausted (`io.EOF` at a clean end). The source
reports that error on a read that delivers no bytes. -/
structure Reader where
  data : List Byte
  err : Error

/-- The method `bufio.Reader.Peek`. -/
def Reader.Peek (b : Reader) (n : Nat) : List Byte × Option Error :=
  if n ≤ b.data.length then (b.data.take n, none) else (b.data, some b.err)

/-- The method `bufio.Reader.ReadSlice`: the bytes up to and including the first `delim`
within the buffer; `ErrBufferFull` when the buffer fills without one; the source's
error with the remaining bytes when the source ends first. -/
def Reader.ReadSlice (b : Reader) (delim : Byte) : List Byte × Option Error × Reader :=
  match IndexByte (b.data.take defaultBufSize) delim with
  | some i => (b.data.take (i + 1), none, { b with data := b.data.drop (i + 1) })
  | none =>
    if defaultBufSize ≤ b.data.length then
      (b.data.take defaultBufSize, some .ErrBufferFull, { b with data := b.data.drop defaultBufSize })
    else (b.data, some b.err, { b with data := [] })

/-- The library functions `OpenReader` calls that are taken as given:
`mem.ParseInt(mem.B(b), 10, 64)`, `netip.ParseAddr(string(b))`, and `gzip.NewReader`
(applied to the whole input; it yields the decompressed stream as a reader, or the
header error). -/
structure Lib where
  ParseInt : List Byte → Option Int
  ParseAddr : List Byte → Option Addr
  gzipNewReader : List Byte → Except Error Reader

/-! ## parseTSV -/

/-- The loop `for i, dst := range dsts` of `parseTSV`, with `k` destinations left;
the result lists the values stored through them. -/
def parseTSVLoop : Nat → List Byte → Except Error (List (List Byte))
  | 0, _ => .ok []
  | k + 1, line =>
    let last := decide (k = 0)
    match IndexByte line 9 with
    | none =>
      if !last then .error (.shortLine line)
      else
        match parseTSVLoop k line with
        | .error e => .error e
        | .ok rest => .ok (line :: rest)
    | some tab =>
      match parseTSVLoop k (line.drop (tab + 1)) with
      | .error e => .error e
      | .ok rest => .ok (line.take tab :: rest)

/-- The function `parseTSV(line, dsts...)` with `n` destinations. -/
def parseTSV (line : List Byte) (n : Nat) : Except Error (List (List Byte)) :=
  let line := if line.getLast? = some 10 then line.dropLast else line
  parseTSVLoop n line

/-! ## OpenReader -/

/-- The body of the `for` loop of `OpenReader` after a successful `ReadSlice`:
one line is split, filtered and added to the table. -/
def processLine (L : Lib) (line : List Byte) (m : Map) : Except Error Map :=
  match parseTSV line 5 with
  | .error e => .error e
  | .ok dsts =>
    let startIPB := dsts.getD 0 []
    let endIPB := dsts.getD 1 []
    let asnB := dsts.getD 2 []
    let country := dsts.getD 3 []
    let desc := dsts.getD 4 []
    if desc = str "Not routed" then .ok m
    else
      match L.ParseInt asnB with
      | none => .error (.bogusASN asnB line)
      | some as =>
        let m : Map :=
          if (m.asName as).isNone then
            { m with
              asName := fun k => if k = as then some desc else m.asName k
              asCountry := fun k => if k = as then some country else m.asCountry k }
          else m
        match L.ParseAddr startIPB with
        | none => .error (.bogusIP startIPB line)
        | some startIP =>
          match L.ParseAddr endIPB with
          | none => .error (.bogusIP endIPB line)
          | some endIP => .ok { m with recs := m.recs ++ [⟨startIP, endIP, as⟩] }

/-- The `for` loop of `OpenReader`; `none` means the iteration bound `fuel` ran out
(it does not, see `OpenReader_eq`). -/
def readLoop (L : Lib) : Nat → Reader → Map → Option (Except Error Map)
  | 0, _, _ => none
  | fuel + 1, br, m =>
    match br.ReadSlice 10 with
    | (_, some err, _) => if err = .EOF then some (.ok m) else some (.error err)
    | (line, none, br) =>
      match processLine L line m with
      | .error e => some (.error e)
      | .ok m => readLoop L fuel br m

/-- The function `OpenReader`, on a source that delivers the bytes `r` and then `io.EOF`. -/
def OpenReader (L : Lib) (r : List Byte) : Option (Except Error Map) :=
  let br : Reader := ⟨r, .EOF⟩
  match br.Peek 2 with
  | (_, some err) => some (.error err)
  | (magic, none) =>
    if magic = [0x1f, 0x8b] then
      match L.gzipNewReader r with
      | .error err => some (.error err)
      | .ok zr => readLoop L (zr.data.length + 1) zr Map.empty
    else readLoop L (br.data.length + 1) br Map.empty

/-! ## Executable models of the library functions, for concrete inputs -/

/-- The digit loop of `strconv.ParseUint(s, 10, 64)`; the range check is left to the caller. -/
def parseDigits : List Byte → Nat → Option Nat
  | [], acc => some acc
  | c :: cs, acc => if 48 ≤ c ∧ c ≤ 57 then parseDigits cs (acc * 10 + (c - 48)) else none

/-- The function `strconv.ParseInt(s, 10, 64)`, which `mem.ParseInt` wraps: an optional
sign, at least one decimal digit, nothing else, and a value in the int64 range. -/
def strconvParseInt (s : List Byte) : Option Int :=
  match s with
  | [] => none
  | c :: t =>
    let neg := decide (c = 45)
    let s := if c = 43 ∨ c = 45 then t else s
    if s = [] then none
    else
      match parseDigits s 0 with
      | none => none
      | some un =>
        if !neg && decide (2 ^ 63 ≤ un) then none
        else if neg && decide (2 ^ 63 < un) then none
        else some (if neg then -(un : Int) else (un : Int))

/-- The loop of netip's `parseIPv4Fields`: `first` is `i == 0`, `prevDot` is
`s[i-1] == '.'`, `fields` holds the `pos` octets stored so far. -/
def parseIPv4Loop : List Byte → Bool → Bool → Nat → Nat → List Nat → Option (List Nat)
  | [], _, _, val, _, fields => if fields.length < 3 then none else some (fields ++ [val])
  | c :: rest, first, prevDot, val, digLen, fields =>
    if 48 ≤ c ∧ c ≤ 57 then
      if digLen = 1 ∧ val = 0 then none
      else
        let val := val * 10 + (c - 48)
        if val > 255 then none else parseIPv4Loop rest false false val (digLen + 1) fields
    else if c = 46 then
      if first ∨ rest = [] ∨ prevDot then none
      else if fields.length = 3 then none
      else parseIPv4Loop rest false true 0 0 (fields ++ [val])
    else none

/-- Big-endian value of a byte string. -/
def beUint (bs : List Nat) : Nat := bs.foldl (fun acc b => acc * 256 + b) 0

/-- netip's `parseIPv4`: four dotted decimal octets, stored IPv4-mapped with tag `z4`. -/
def parseIPv4 (s : List Byte) : Option Addr :=
  match parseIPv4Loop s true false 0 0 [] with
  | none => none
  | some fields => some ⟨0, 0xffff00000000 + beUint fields, .z4⟩

/-- Value of a hexadecimal digit. -/
def hexVal (c : Byte) : Option Nat :=
  if 48 ≤ c ∧ c ≤ 57 then some (c - 48)
  else if 97 ≤ c ∧ c ≤ 102 then some (c - 97 + 10)
  else if 65 ≤ c ∧ c ≤ 70 then some (c - 65 + 10)
  else none

/-- The hex-group loop of netip's `parseIPv6`: the number of digits read and their value;
`none` on a fifth digit. -/
def parseHex : List Byte → Nat → Nat → Option (Nat × Nat)
  | [], off, acc => some (off, acc)
  | c :: cs, off, acc =>
    match hexVal c with
    | none => some (off, acc)
    | some d =>
      let acc := acc * 16 + d
      if off > 3 then none
      else if acc > 0xffff then none
      else parseHex cs (off + 1) acc

/-- The loop `for i < 16` of netip's `parseIPv6`, `i` being `ip.length`: the unparsed
rest, the bytes stored and the ellipsis position when the loop is left. Each round
stores two bytes, so eight rounds reach `i = 16`. -/
def parseIPv6Loop : Nat → List Byte → List Nat → Option Nat →
    Option (List Byte × List Nat × Option Nat)
  | 0, s, ip, ell => some (s, ip, ell)
  | fuel + 1, s, ip, ell =>
    if ¬ ip.length < 16 then some (s, ip, ell)
    else
      match parseHex s 0 0 with
      | none => none
      | some (off, acc) =>
        if off = 0 then none
        else if s.get? off = some 46 then
          if ell.isNone ∧ ip.length ≠ 12 then none
          else if ip.length + 4 > 16 then none
          else
            match parseIPv4Loop s true false 0 0 [] with
            | none => none
            | some f => some ([], ip ++ f, ell)
        else
          let ip := ip ++ [acc / 256, acc % 256]
          let s := s.drop off
          if s = [] then some (s, ip, ell)
          else if s.head? ≠ some 58 then none
          else if s.length = 1 then none
          else
            let s := s.drop 1
            if s.head? = some 58 then
              if ell.isSome then none
              else
                let s := s.drop 1
                if s = [] then some (s, ip, some ip.length)
                else parseIPv6Loop fuel s ip (some ip.length)
            else parseIPv6Loop fuel s ip ell

/-- netip's `parseIPv6`: zone split, leading ellipsis, the group loop, ellipsis expansion. -/
def parseIPv6 (input : List Byte) : Option Addr :=
  let split : Option (List Byte × List Byte) :=
    match IndexByte input 37 with
    | none => some (input, [])
    | some i => if input.drop (i + 1) = [] then none else some (input.take i, input.drop (i + 1))
  match split with
  | none => none
  | some (s, zone) =>
    let lead := decide (s.take 2 = [58, 58])
    let s := if lead then s.drop 2 else s
    let ell : Option Nat := if lead then some 0 else none
    if lead ∧ s = [] then some ⟨0, 0, .z6 zone⟩
    else
      match parseIPv6Loop 8 s [] ell with
      | none => none
      | some (s, ip, ell) =>
        if s ≠ [] then none
        else if ip.length < 16 then
          match ell with
          | none => none
          | some e =>
            let ip := ip.take e ++ List.replicate (16 - ip.length) 0 ++ ip.drop e
            some ⟨beUint (ip.take 8), beUint (ip.drop 8), .z6 zone⟩
        else if ell.isSome then none
        else some ⟨beUint (ip.take 8), beUint (ip.drop 8), .z6 zone⟩

/-- The function `netip.ParseAddr`: the first `.`, `:` or `%` selects the parser. -/
def netipParseAddr (s : List Byte) : Option Addr :=
  match s.find? (fun c => c = 46 ∨ c = 58 ∨ c = 37) with
  | some 46 => parseIPv4 s
  | some 58 => parseIPv6 s
  | _ => none

/-- The header check of `gzip.NewReader`: fewer than ten bytes (`reader 0`), or a wrong
magic or a compression method other than deflate (`reader 1`, `gzip.ErrHeader`), is an
error. Inflating a member with a well-formed header is outside this model (it answers
`reader 2`); the function is only ever applied to plain inputs, where `OpenReader` does not
call it, and to malformed headers. -/
def gzipHeaderOnly (r : List Byte) : Except Error Reader :=
  if r.length < 10 then .error (.reader 0)
  else if r.take 3 ≠ [0x1f, 0x8b, 8] then .error (.reader 1)
  else .error (.reader 2)

/-- The library as linked into the package. -/
def goLib : Lib := ⟨strconvParseInt, netipParseAddr, gzipHeaderOnly⟩

/-- The constant `subset` of `ip2asn_test.go`. -/
def subset : List Byte :=
  List.flatten [
    str "1.0.0.0\t1.0.0.255\t13335\tUS\tCLOUDFLARENET - Cloudflare, Inc.\n",
    str "1.0.1.0\t1.0.3.255\t0\tNone\tNot routed\n",
    str "1.0.4.0\t1.0.7.255\t56203\tAU\tGTELECOM-AUSTRALIA Gtelecom-AUSTRALIA\n",
    str "1.0.8.0\t1.0.15.255\t0\tNone\tNot routed\n",
    str "1.0.16.0\t1.0.16.255\t2519\tJP\tVECTANT ARTERIA Networks Corporation\n",
    str "1.0.17.0\t1.0.63.255\t0\tNone\tNot routed\n",
    str "1.0.64.0\t1.0.127.255\t18144\tJP\tAS-ENECOM Energia Communications,Inc.\n",
    str "1.0.128.0\t1.0.133.255\t23969\tTH\tTOT-NET TOT Public Company Limited\n",
    str "1.0.134.0\t1.0.194.255\t23969\tTH\tTOT-NET TOT Public Company Limited\n",
    str "1.0.195.0\t1.0.221.255\t23969\tTH\tTOT-NET TOT Public Company Limited\n",
    str "1.0.222.0\t1.0.255.255\t23969\tTH\tTOT-NET TOT Public Company Limited\n",
    str "1.1.0.0\t1.1.0.255\t0\tNone\tNot routed\n",
    str "1.1.1.0\t1.1.1.0\t13335\tUS\tCLOUDFLARENET - Cloudflare, Inc.\n",
    str "1.1.1.1\t1.1.1.1\t7497\tCN\tCSTNET-AS-AP Computer Network Information Center\n",
    str "1.1.1.2\t1.1.1.255\t13335\tUS\tCLOUDFLARENET - Cloudflare, Inc.\n",
    str "1.1.2.0\t1.1.5.255\t0\tNone\tNot routed\n",
    str "1.1.6.0\t1.1.6.255\t138449\tHK\tSYUNET-AS-AP SIANG YU SCIENCE AND TECHNOLOGY LIMITED\n",
    str "1.1.7.0\t1.1.7.255\t0\tNone\tNot routed\n",
    str "1.1.8.0\t1.1.8.255\t4134\tCN\tCHINANET-BACKBONE No.31,Jin-rong Street\n",
    str "1.1.9.0\t1.1.19.255\t0\tNone\tNot routed\n",
    str "2c0f:ff30::\t2c0f:ff30:ffff:ffff:ffff:ffff:ffff:ffff\t37334\tZA\tARC\n",
    str "2c0f:ff31::\t2c0f:ff3f:ffff:ffff:ffff:ffff:ffff:ffff\t0\tNone\tNot routed\n",
    str "2c0f:ff40::\t2c0f:ff7f:ffff:ffff:ffff:ffff:ffff:ffff\t10474\tZA\tOPTINET\n",
    str "2c0f:ff80::\t2c0f:ff80:ffff:ffff:ffff:ffff:ffff:ffff\t327698\tZA\tBInfraco\n",
    str "2c0f:ff81::\t2c0f:ff8f:ffff:ffff:ffff:ffff:ffff:ffff\t0\tNone\tNot routed\n",
    str "2c0f:ff90::\t2c0f:ff90:ffff:ffff:ffff:ffff:ffff:ffff\t15808\tKE\tACCESSKENYA-KE ACCESSKENYA GROUP LTD is an ISP serving\n",
    str "2c0f:ff91::\t2c0f:ff9f:ffff:ffff:ffff:ffff:ffff:ffff\t0\tNone\tNot routed\n",
    str "2c0f:ffa0::\t2c0f:ffa0:ffff:ffff:ffff:ffff:ffff:ffff\t37273\tUG\tBCS\n",
    str "2c0f:ffa1::\t2c0f:ffc7:ffff:ffff:ffff:ffff:ffff:ffff\t0\tNone\tNot routed\n",
    str "2c0f:ffc8::\t2c0f:ffc8:ffff:ffff:ffff:ffff:ffff:ffff\t22355\tZA\tFROGFOOT\n",
    str "2c0f:ffc9::\t2c0f:ffcf:ffff:ffff:ffff:ffff:ffff:ffff\t0\tNone\tNot routed\n",
    str "2c0f:ffd0::\t2c0f:ffd0:ffff:ffff:ffff:ffff:ffff:ffff\t36968\tZA\tECN-AS1\n",
    str "2c0f:ffd1::\t2c0f:ffd7:ffff:ffff:ffff:ffff:ffff:ffff\t0\tNone\tNot routed\n",
    str "2c0f:ffd8::\t2c0f:ffd8:ffff:ffff:ffff:ffff:ffff:ffff\t33762\tZA\tWBS\n",
    str "2c0f:ffd9::\t2c0f:ffef:ffff:ffff:ffff:ffff:ffff:ffff\t0\tNone\tNot routed\n",
    str "2c0f:fff0::\t2c0f:fff0:ffff:ffff:ffff:ffff:ffff:ffff\t37125\tNG\tLayer3-\n",
    str "2c0f:fff1::\tfdff:ffff:ffff:ffff:ffff:ffff:ffff:ffff\t0\tNone\tNot routed\n",
    str "fe00::\tfebf:ffff:ffff:ffff:ffff:ffff:ffff:ffff\t0\tNone\tNot routed\n",
    str "fec0::\tffff:ffff:ffff:ffff:ffff:ffff:ffff:fffe\t0\tNone\tNot routed\n",
    str "ffff:ffff:ffff:ffff:ffff:ffff:ffff:ffff\tffff:ffff:ffff:ffff:ffff:ffff:ffff:ffff\t0\tNone\tNot routed\n"]

/-! ## Definitions used to state and prove the properties -/

/-- The sort key of an address: bit length, then `hi`, then `lo`, then zone, compared
lexicographically. -/
def Addr.key (a : Addr) : Nat ×ₗ Nat ×ₗ Nat ×ₗ List Nat :=
  toLex (a.BitLen, toLex (a.hi, toLex (a.lo, a.Zone)))

/-- One level of the three-way comparison in `Compare`. -/
def tri (x y : Nat) (r : Int) : Int := if x < y then -1 else if x > y then 1 else r

/-- The zone step of `Compare`. -/
def zoneCmp (a b : Addr) : Int :=
  if a.Is6 then
    if strLess a.Zone b.Zone then -1 else if strLess b.Zone a.Zone then 1 else 0
  else 0

/-- The record's range holds the address: `startIP <= a <= endIP`. -/
def Contains (r : rec) (a : Addr) : Prop := r.startIP.le a ∧ a.le r.endIP

instance (r : rec) (a : Addr) : Decidable (Contains r a) := by unfold Contains; infer_instance

/-- The records are in ascending order of `startIP`. -/
def SortedByStart (recs : List rec) : Prop :=
  recs.Chain' (fun r s => r.startIP.le s.startIP)

/-- Each record ends strictly before the next one starts. -/
def NonOverlapping (recs : List rec) : Prop :=
  recs.Chain' (fun r s => r.endIP.Less s.startIP = true)

/-- Deciding a chain by walking the list, so that concrete tables evaluate. -/
def decideChain {α : Type} (R : α → α → Prop) [DecidableRel R] :
    (a : α) → (l : List α) → Decidable (List.Chain R a l)
  | _, [] => isTrue List.Chain.nil
  | a, b :: l =>
    if h1 : R a b then
      match decideChain R b l with
      | isTrue h2 => isTrue (List.Chain.cons h1 h2)
      | isFalse h2 => isFalse (fun h => h2 (List.chain_cons.mp h).2)
    else isFalse (fun h => h1 (List.chain_cons.mp h).1)

instance (recs : List rec) : Decidable (SortedByStart recs) :=
  match recs with
  | [] => isTrue List.chain'_nil
  | r :: rest => (decideChain (fun (r s : rec) => r.startIP.le s.startIP) r rest :)

instance (recs : List rec) : Decidable (NonOverlapping recs) :=
  match recs with
  | [] => isTrue List.chain'_nil
  | r :: rest => (decideChain (fun (r s : rec) => r.endIP.Less s.startIP = true) r rest :)

/-- The address lies in a gap of the table: before the first record, after the last,
or strictly between two consecutive records. -/
def InGap (recs : List rec) (a : Addr) : Prop :=
  (∃ r, recs.head? = some r ∧ a.Less r.startIP = true) ∨
  (∃ r, recs.getLast? = some r ∧ r.endIP.Less a = true) ∨
  (∃ i, ∃ h : i + 1 < recs.length,
    (recs.get ⟨i, by omega⟩).endIP.Less a = true ∧ a.Less (recs.get ⟨i + 1, h⟩).startIP = true)

deriving instance DecidableEq for Except

/-- The line with one trailing newline removed, as `parseTSV` does first. -/
def stripNL (line : List Byte) : List Byte :=
  if line.getLast? = some 10 then line.dropLast else line

/-- The rest of a line after its first `k` tab-terminated fields (empty when there are
fewer than `k` tabs). -/
def dropFields : Nat → List Byte → List Byte
  | 0, l => l
  | k + 1, l =>
    match IndexByte l 9 with
    | none => []
    | some i => dropFields k (l.drop (i + 1))

/-- The field at position `k` (from 0): the bytes after the `k`-th tab up to the next tab
or the end of the line. -/
def field (k : Nat) (l : List Byte) : List Byte := (dropFields k l).takeWhile (· ≠ 9)

/-- The newline-terminated lines of a byte stream, each with its newline, in order, and
the unterminated rest after the last newline. -/
def splitLines : List Byte → List (List Byte) × List Byte
  | [] => ([], [])
  | b :: bs =>
    if b = 10 then ([10] :: (splitLines bs).1, (splitLines bs).2)
    else
      match splitLines bs with
      | ([], t) => ([], b :: t)
      | (l :: ls, t) => ((b :: l) :: ls, t)

/-- How the loop of `OpenReader` ends once every newline-terminated line is consumed:
an unterminated rest that fills the buffer is `ErrBufferFull`, a clean end of the source
returns the table, any other source error is returned. -/
def finish (rest : List Byte) (e : Error) (m : Map) : Except Error Map :=
  if defaultBufSize ≤ rest.length then .error .ErrBufferFull
  else if e = .EOF then .ok m
  else .error e

/-- The loop of `OpenReader` told line by line: each line must fit the buffer and pass
`processLine`, in order, the first failure ending the run. -/
def runLines (L : Lib) : List (List Byte) → List Byte → Error → Map → Except Error Map
  | [], rest, e, m => finish rest e m
  | l :: ls, rest, e, m =>
    if defaultBufSize < l.length then .error .ErrBufferFull
    else
      match processLine L l m with
      | .error err => .error err
      | .ok m' => runLines L ls rest e m'

/-- The input is gzip-framed: it starts with the magic bytes `1f 8b`. -/
def isGzip (r : List Byte) : Bool := decide (r.take 2 = [0x1f, 0x8b])

/-- The byte stream the loop of `OpenReader` reads lines from: the input itself, or the
output of the gzip reader when the input is gzip-framed. -/
def stream (L : Lib) (r : List Byte) : Reader :=
  if isGzip r then
    match L.gzipNewReader r with
    | .ok zr => zr
    | .error e => ⟨[], e⟩
  else ⟨r, .EOF⟩

/-- The newline-terminated lines `OpenReader` reads. -/
def inputLines (L : Lib) (r : List Byte) : List (List Byte) := (splitLines (stream L r).data).1

/-- The start-address field of a line. -/
def startField (l : List Byte) : List Byte := field 0 (stripNL l)

/-- The end-address field of a line. -/
def endField (l : List Byte) : List Byte := field 1 (stripNL l)

/-- The ASN field of a line. -/
def asnField (l : List Byte) : List Byte := field 2 (stripNL l)

/-- The country field of a line. -/
def countryField (l : List Byte) : List Byte := field 3 (stripNL l)

/-- The description field of a line, as `parseTSV` delimits it. -/
def descField (l : List Byte) : List Byte := field 4 (stripNL l)

/-- The line has the four tabs `parseTSV` requires. -/
def hasFourTabs (l : List Byte) : Bool := decide (4 ≤ (stripNL l).count 9)

/-- The line is dropped as unrouted: its description is exactly `Not routed`. -/
def isNotRouted (l : List Byte) : Bool := decide (descField l = str "Not routed")

/-- The lines that are kept: those not dropped as unrouted. -/
def retained (ls : List (List Byte)) : List (List Byte) := ls.filter (fun l => !isNotRouted l)

/-- The record a line stands for: its parsed start address, end address and ASN. -/
def recOfLine (L : Lib) (l : List Byte) : Option rec :=
  match L.ParseAddr (startField l), L.ParseAddr (endField l), L.ParseInt (asnField l) with
  | some s, some e, some as => some ⟨s, e, as⟩
  | _, _, _ => none

/-- The table `OpenReader` returned, if it returned one. -/
def loaded (L : Lib) (r : List Byte) : Option Map :=
  match OpenReader L r with
  | some (.ok m) => some m
  | _ => none

/-- The error `OpenReader` returned, if it returned one. -/
def failure (L : Lib) (r : List Byte) : Option Error :=
  match OpenReader L r with
  | some (.error e) => some e
  | _ => none

/-- The table after a kept line: the ASN's description and country are stored if the ASN
has none yet, and the record is appended. -/
def addLine (m : Map) (as : Int) (desc country : List Byte) (r : rec) : Map :=
  { asName := fun k => if (m.asName as).isNone ∧ k = as then some desc else m.asName k
    asCountry := fun k => if (m.asName as).isNone ∧ k = as then some country else m.asCountry k
    recs := m.recs ++ [r] }

/-- The function `OpenReader` told line by line. -/
def OpenReaderLines (L : Lib) (r : List Byte) : Except Error Map :=
  if r.length < 2 then .error .EOF
  else if isGzip r then
    match L.gzipNewReader r with
    | .error e => .error e
    | .ok zr => runLines L (splitLines zr.data).1 (splitLines zr.data).2 zr.err Map.empty
  else runLines L (splitLines r).1 (splitLines r).2 .EOF Map.empty

/-- The first kept line that carries the given ASN. -/
def firstLineOf (L : Lib) (ls : List (List Byte)) (x : Int) : Option (List Byte) :=
  (retained ls).find? (fun l => decide (L.ParseInt (asnField l) = some x))

/-! ## Concrete tables used as examples -/

/-- The table loaded from the test's `subset`. -/
@[irreducible] def subsetMap : Map := (loaded goLib subset).getD Map.empty

/-- The records of the table loaded from `subset`: 22 of its 40 lines are kept. -/
def subsetRecs : List rec := [
    ⟨⟨0, 281470698520576, .z4⟩, ⟨0, 281470698520831, .z4⟩, 13335⟩,
    ⟨⟨0, 281470698521600, .z4⟩, ⟨0, 281470698522623, .z4⟩, 56203⟩,
    ⟨⟨0, 281470698524672, .z4⟩, ⟨0, 281470698524927, .z4⟩, 2519⟩,
    ⟨⟨0, 281470698536960, .z4⟩, ⟨0, 281470698553343, .z4⟩, 18144⟩,
    ⟨⟨0, 281470698553344, .z4⟩, ⟨0, 281470698554879, .z4⟩, 23969⟩,
    ⟨⟨0, 281470698554880, .z4⟩, ⟨0, 281470698570495, .z4⟩, 23969⟩,
    ⟨⟨0, 281470698570496, .z4⟩, ⟨0, 281470698577407, .z4⟩, 23969⟩,
    ⟨⟨0, 281470698577408, .z4⟩, ⟨0, 281470698586111, .z4⟩, 23969⟩,
    ⟨⟨0, 281470698586368, .z4⟩, ⟨0, 281470698586368, .z4⟩, 13335⟩,
    ⟨⟨0, 281470698586369, .z4⟩, ⟨0, 281470698586369, .z4⟩, 7497⟩,
    ⟨⟨0, 281470698586370, .z4⟩, ⟨0, 281470698586623, .z4⟩, 13335⟩,
    ⟨⟨0, 281470698587648, .z4⟩, ⟨0, 281470698587903, .z4⟩, 138449⟩,
    ⟨⟨0, 281470698588160, .z4⟩, ⟨0, 281470698588415, .z4⟩, 4134⟩,
    ⟨⟨3175036843943002112, 0, .z6 []⟩, ⟨3175036848237969407, 18446744073709551615, .z6 []⟩, 37334⟩,
    ⟨⟨3175036912662478848, 0, .z6 []⟩, ⟨3175037187540385791, 18446744073709551615, .z6 []⟩, 10474⟩,
    ⟨⟨3175037187540385792, 0, .z6 []⟩, ⟨3175037191835353087, 18446744073709551615, .z6 []⟩, 327698⟩,
    ⟨⟨3175037256259862528, 0, .z6 []⟩, ⟨3175037260554829823, 18446744073709551615, .z6 []⟩, 15808⟩,
    ⟨⟨3175037324979339264, 0, .z6 []⟩, ⟨3175037329274306559, 18446744073709551615, .z6 []⟩, 37273⟩,
    ⟨⟨3175037496778031104, 0, .z6 []⟩, ⟨3175037501072998399, 18446744073709551615, .z6 []⟩, 22355⟩,
    ⟨⟨3175037531137769472, 0, .z6 []⟩, ⟨3175037535432736767, 18446744073709551615, .z6 []⟩, 36968⟩,
    ⟨⟨3175037565497507840, 0, .z6 []⟩, ⟨3175037569792475135, 18446744073709551615, .z6 []⟩, 33762⟩,
    ⟨⟨3175037668576722944, 0, .z6 []⟩, ⟨3175037672871690239, 18446744073709551615, .z6 []⟩, 37125⟩]

/-- A well-formed line that carries ASN 0 without being marked `Not routed`. -/
def zeroAsnInput : List Byte := str "1.0.0.0\t1.0.0.255\t0\tUS\tEXAMPLE\n"

/-- The table loaded from `zeroAsnInput`. -/
def zeroAsnMap : Map := (loaded goLib zeroAsnInput).getD Map.empty

/-- Two kept lines with the same ASN and different descriptions and countries. -/
def dupInput : List Byte :=
  str "1.0.0.0\t1.0.0.255\t13335\tUS\tCLOUDFLARENET\n" ++
  str "1.1.1.0\t1.1.1.0\t13335\tAU\tANOTHER NAME\n"

/-- The table loaded from `dupInput`. -/
def dupMap : Map := (loaded goLib dupInput).getD Map.empty

/-- A line marked `Not routed` whose other fields are not addresses or numbers. -/
def junkUnrouted : List Byte := str "a\tb\tc\td\tNot routed\n"

/-- A good line followed by an unterminated rest with no tab at all. -/
def unterminatedInput : List Byte := str "1.0.0.0\t1.0.0.255\t13335\tUS\tCLOUDFLARENET\nshort"

/-- A kept line whose ASN field is not a number. -/
def badAsnInput : List Byte := str "1.0.0.0\t1.0.0.255\tx\tUS\tCLOUDFLARENET\n"

/-- A kept line whose start address lies after its end address. -/
def invertedInput : List Byte := str "1.0.0.9\t1.0.0.1\t5\tUS\tEXAMPLE\n"

/-- The table loaded from `invertedInput`. -/
def invertedMap : Map := (loaded goLib invertedInput).getD Map.empty

/-- The shortest line marked `Not routed`: four empty fields. -/
def emptyUnrouted : List Byte := str "\t\t\t\tNot routed\n"

/-- A line marked `Not routed` that is longer than the read buffer. -/
def longUnrouted : List Byte := List.replicate 4096 120 ++ emptyUnrouted

/-- A line marked `Not routed` whose start-address field is the gzip magic. -/
def magicUnrouted : List Byte := [0x1f, 0x8b] ++ emptyUnrouted

/-- The first line of the test's `subset`. -/
def subsetLine1 : List Byte := str "1.0.0.0\t1.0.0.255\t13335\tUS\tCLOUDFLARENET - Cloudflare, Inc.\n"

/-- The sixth line of the test's `subset`, marked `Not routed`. -/
def subsetLine6 : List Byte := str "1.0.17.0\t1.0.63.255\t0\tNone\tNot routed\n"

/-- The seventh line of the test's `subset`. -/
def subsetLine7 : List Byte :=
  str "1.0.64.0\t1.0.127.255\t18144\tJP\tAS-ENECOM Energia Communications,Inc.\n"

/-- The sixth line of the test's `subset` without its newline. -/
def subsetLine6Body : List Byte := str "1.0.17.0\t1.0.63.255\t0\tNone\tNot routed"

/-- The index `sort.Search` returns in `ASofIP`: the `cand` of the source. -/
def cand (m : Map) (ip : Addr) : Nat :=
  Search m.recs.length (fun i => ip.Less (m.recs.get i).startIP)

/-- The method `recIndexHasIP` with its last check, `ip.Less(rec.startIP)`, removed. -/
def recIndexHasIPNoStart (m : Map) (i : Int) (ip : Addr) : Option Int :=
  if i < 0 then some 0
  else
    match m.recs[i.toNat]? with
    | none => none
    | some rec =>
      if rec.endIP.Less ip then some 0
      else some rec.asn

/-- Two well-formed lines in descending order of start address. -/
def unsortedInput : List Byte :=
  str "1.0.1.0\t1.0.1.255\t2\tUS\tSECOND\n" ++ str "1.0.0.0\t1.0.0.255\t1\tUS\tFIRST\n"

/-- The table loaded from `unsortedInput`. -/
def unsortedMap : Map := (loaded goLib unsortedInput).getD Map.empty

/-- An unterminated final segment longer than the read buffer: 5000 bytes `x`, no newline. -/
def longTail : List Byte := List.replicate 5000 120

/-- A base-10 integer as text: an optional sign, then one or more decimal digits. -/
def isBase10Integer (s : List Byte) : Bool :=
  match s with
  | [] => false
  | c :: t =>
    let ds := if c = 43 ∨ c = 45 then t else s
    !ds.isEmpty && ds.all (fun d => decide (48 ≤ d ∧ d ≤ 57))

/-- The integer a base-10 numeral denotes. -/
def base10Value (s : List Byte) : Int :=
  match s with
  | [] => 0
  | c :: t =>
    let ds := if c = 43 ∨ c = 45 then t else s
    let n : Nat := ds.foldl (fun acc d => acc * 10 + (d - 48)) 0
    if c = 45 then -(n : Int) else (n : Int)

/-- A well-formed kept line whose ASN is a base-10 integer one past the largest int64. -/
def overflowAsnInput : List Byte := str "1.0.0.0\t1.0.0.255\t9223372036854775808\tUS\tEXAMPLE\n"

/-! # Theorems -/

/-! ## The address order is a strict total order -/

theorem strLess_iff_lex : ∀ (a b : List Byte), strLess a b = true ↔ List.Lex (· < ·) a b
  | [], [] => by simp [strLess]
  | [], _ :: _ => by simp [strLess, List.Lex.nil]
  | _ :: _, [] => by simp [strLess]
  | a :: as, b :: bs => by
    have ih := strLess_iff_lex as bs
    simp only [strLess, Bool.or_eq_true, Bool.and_eq_true, decide_eq_true_eq, ih]
    constructor
    · rintro (h | ⟨rfl, h⟩)
      · exact List.Lex.rel h
      · exact List.Lex.cons h
    · intro h
      cases h with
      | cons h => exact Or.inr ⟨rfl, h⟩
      | rel h => exact Or.inl h

theorem strLess_iff_lt (a b : List Byte) : strLess a b = true ↔ a < b := strLess_iff_lex a b

theorem Addr.key_lt_iff (a b : Addr) : a.key < b.key ↔
    a.BitLen < b.BitLen ∨ a.BitLen = b.BitLen ∧ (a.hi < b.hi ∨ a.hi = b.hi ∧
      (a.lo < b.lo ∨ a.lo = b.lo ∧ a.Zone < b.Zone)) := by
  simp [Addr.key, Prod.Lex.lt_iff]

theorem Addr.zone_of_not_Is6 (a b : Addr) (h : a.Is6 = false) (hb : a.BitLen = b.BitLen) :
    a.Zone = [] ∧ b.Zone = [] := by
  rcases a with ⟨ah, al, az⟩
  rcases b with ⟨bh, bl, bz⟩
  cases az <;> cases bz <;> simp_all [Addr.Is6, Addr.BitLen, Addr.Zone]

theorem tri_eq_neg (x y : Nat) (r : Int) : tri x y r = -1 ↔ x < y ∨ x = y ∧ r = -1 := by
  unfold tri
  by_cases h1 : x < y
  · rw [if_pos h1]; exact iff_of_true rfl (Or.inl h1)
  · rw [if_neg h1]
    by_cases h2 : x > y
    · rw [if_pos h2]
      refine iff_of_false (by decide) ?_
      rintro (h | ⟨h, _⟩) <;> omega
    · rw [if_neg h2]
      constructor
      · intro h; exact Or.inr ⟨by omega, h⟩
      · rintro (h | ⟨_, h⟩)
        · omega
        · exact h

theorem tri_eq_pos (x y : Nat) (r : Int) : tri x y r = 1 ↔ y < x ∨ y = x ∧ r = 1 := by
  unfold tri
  by_cases h1 : x < y
  · rw [if_pos h1]
    refine iff_of_false (by decide) ?_
    rintro (h | ⟨h, _⟩) <;> omega
  · rw [if_neg h1]
    by_cases h2 : x > y
    · rw [if_pos h2]; exact iff_of_true rfl (Or.inl h2)
    · rw [if_neg h2]
      constructor
      · intro h; exact Or.inr ⟨by omega, h⟩
      · rintro (h | ⟨_, h⟩)
        · omega
        · exact h

theorem Addr.Compare_eq_tri (a b : Addr) :
    a.Compare b = tri a.BitLen b.BitLen (tri a.hi b.hi (tri a.lo b.lo (zoneCmp a b))) := rfl

theorem zoneCmp_eq_neg (a b : Addr) (hb : a.BitLen = b.BitLen) :
    zoneCmp a b = -1 ↔ a.Zone < b.Zone := by
  unfold zoneCmp
  by_cases h6 : a.Is6 = true
  · rw [if_pos h6]
    by_cases h : strLess a.Zone b.Zone = true
    · rw [if_pos h]; exact iff_of_true rfl ((strLess_iff_lt _ _).mp h)
    · rw [if_neg h]
      refine iff_of_false ?_ (fun h2 => h ((strLess_iff_lt _ _).mpr h2))
      by_cases h2 : strLess b.Zone a.Zone = true
      · rw [if_pos h2]; decide
      · rw [if_neg h2]; decide
  · rw [if_neg h6]
    have hz := Addr.zone_of_not_Is6 a b (by simpa using h6) hb
    refine iff_of_false (by decide) ?_
    rw [hz.1, hz.2]
    exact lt_irrefl _

theorem zoneCmp_eq_pos (a b : Addr) (hb : b.BitLen = a.BitLen) :
    zoneCmp a b = 1 ↔ b.Zone < a.Zone := by
  unfold zoneCmp
  by_cases h6 : a.Is6 = true
  · rw [if_pos h6]
    by_cases h : strLess a.Zone b.Zone = true
    · rw [if_pos h]
      exact iff_of_false (by decide) (fun h2 => lt_asymm h2 ((strLess_iff_lt _ _).mp h))
    · rw [if_neg h]
      by_cases h2 : strLess b.Zone a.Zone = true
      · rw [if_pos h2]; exact iff_of_true rfl ((strLess_iff_lt _ _).mp h2)
      · rw [if_neg h2]
        exact iff_of_false (by decide) (fun h3 => h2 ((strLess_iff_lt _ _).mpr h3))
  · rw [if_neg h6]
    have hz := Addr.zone_of_not_Is6 a b (by simpa using h6) hb.symm
    refine iff_of_false (by decide) ?_
    rw [hz.1, hz.2]
    exact lt_irrefl _

theorem Addr.Compare_neg_iff (a b : Addr) : a.Compare b = -1 ↔ a.key < b.key := by
  rw [Addr.key_lt_iff, Addr.Compare_eq_tri, tri_eq_neg, tri_eq_neg, tri_eq_neg]
  exact or_congr Iff.rfl (and_congr_right fun hb => or_congr Iff.rfl
    (and_congr_right fun _ => or_congr Iff.rfl (and_congr_right fun _ => zoneCmp_eq_neg a b hb)))

theorem Addr.Compare_pos_iff (a b : Addr) : a.Compare b = 1 ↔ b.key < a.key := by
  rw [Addr.key_lt_iff, Addr.Compare_eq_tri, tri_eq_pos, tri_eq_pos, tri_eq_pos]
  exact or_congr Iff.rfl (and_congr_right fun hb => or_congr Iff.rfl
    (and_congr_right fun _ => or_congr Iff.rfl (and_congr_right fun _ => zoneCmp_eq_pos a b hb)))

theorem Addr.Less_iff (a b : Addr) : a.Less b = true ↔ a.key < b.key := by
  simp [Addr.Less, Addr.Compare_neg_iff]

theorem tri_range (x y : Nat) (r : Int) (h : r = -1 ∨ r = 0 ∨ r = 1) :
    tri x y r = -1 ∨ tri x y r = 0 ∨ tri x y r = 1 := by
  unfold tri
  by_cases h1 : x < y
  · rw [if_pos h1]; exact Or.inl rfl
  · rw [if_neg h1]
    by_cases h2 : x > y
    · rw [if_pos h2]; exact Or.inr (Or.inr rfl)
    · rw [if_neg h2]; exact h

theorem Addr.Compare_range (a b : Addr) : a.Compare b = -1 ∨ a.Compare b = 0 ∨ a.Compare b = 1 := by
  rw [Addr.Compare_eq_tri]
  refine tri_range _ _ _ (tri_range _ _ _ (tri_range _ _ _ ?_))
  unfold zoneCmp
  by_cases h6 : a.Is6 = true
  · rw [if_pos h6]
    by_cases h : strLess a.Zone b.Zone = true
    · rw [if_pos h]; exact Or.inl rfl
    · rw [if_neg h]
      by_cases h2 : strLess b.Zone a.Zone = true
      · rw [if_pos h2]; exact Or.inr (Or.inr rfl)
      · rw [if_neg h2]; exact Or.inr (Or.inl rfl)
  · rw [if_neg h6]; exact Or.inr (Or.inl rfl)

theorem Addr.le_iff (a b : Addr) : a.le b ↔ a.key ≤ b.key := by
  unfold Addr.le
  rw [← not_lt (a := b.key), ← Addr.Compare_pos_iff]
  rcases Addr.Compare_range a b with h | h | h <;> simp [h]

theorem Addr.le_iff_not_Less (a b : Addr) : a.le b ↔ b.Less a = false := by
  rw [Addr.le_iff, ← not_lt, ← Addr.Less_iff]; simp


/-! ## sort.Search and the lookup -/

theorem searchLoop_spec (n : Nat) (f : Fin n → Bool) :
    ∀ (fuel i j : Nat) (hj : j ≤ n), i ≤ j → j - i ≤ fuel →
      ∀ r, searchLoop n f fuel i j hj = r →
        i ≤ r ∧ r ≤ j ∧ (∀ h : r - 1 < n, i < r → f ⟨r - 1, h⟩ = false) ∧
        (∀ h : r < n, r < j → f ⟨r, h⟩ = true) := by
  intro fuel
  induction fuel with
  | zero =>
    intro i j hj hij hf r hr
    have : i = j := by omega
    subst this
    simp only [searchLoop] at hr
    subst hr
    exact ⟨le_refl _, le_refl _, fun _ h => absurd h (lt_irrefl _), fun _ h => absurd h (lt_irrefl _)⟩
  | succ fuel ih =>
    intro i j hj hij hf r hr
    unfold searchLoop at hr
    by_cases hlt : i < j
    · rw [dif_pos hlt] at hr
      simp only [] at hr
      have hmid : (i + j) / 2 < n := by omega
      by_cases hfm : f ⟨(i + j) / 2, hmid⟩ = true
      · rw [if_neg (by simp [hfm])] at hr
        obtain ⟨h1, h2, h3, h4⟩ := ih i ((i + j) / 2) (by omega) (by omega) (by omega) r hr
        refine ⟨h1, by omega, h3, ?_⟩
        intro h hlt2
        by_cases he : r < (i + j) / 2
        · exact h4 h he
        · have : r = (i + j) / 2 := by omega
          subst this
          exact hfm
      · have hfm' : f ⟨(i + j) / 2, hmid⟩ = false := by simpa using hfm
        rw [if_pos (by simp [hfm'])] at hr
        obtain ⟨h1, h2, h3, h4⟩ := ih ((i + j) / 2 + 1) j hj (by omega) (by omega) r hr
        refine ⟨by omega, h2, ?_, h4⟩
        intro h hlt2
        by_cases he : (i + j) / 2 + 1 < r
        · exact h3 h he
        · have : r = (i + j) / 2 + 1 := by omega
          subst this
          exact hfm'
    · rw [dif_neg hlt] at hr
      subst hr
      exact ⟨le_refl _, hij, fun _ h => absurd h (lt_irrefl _), fun _ h => by omega⟩

/-- What `sort.Search` guarantees for any predicate: the result is at most `n`, the
predicate is false just before it and true at it. -/
theorem Search_spec (n : Nat) (f : Fin n → Bool) :
    Search n f ≤ n ∧
    (∀ h : Search n f - 1 < n, 0 < Search n f → f ⟨Search n f - 1, h⟩ = false) ∧
    (∀ h : Search n f < n, f ⟨Search n f, h⟩ = true) := by
  obtain ⟨_, h2, h3, h4⟩ :=
    searchLoop_spec n f n 0 n (Nat.le_refl n) (Nat.zero_le n) (by omega) _ rfl
  exact ⟨h2, h3, fun h => h4 h h⟩


theorem Addr.Less_eq_false_iff (a b : Addr) : a.Less b = false ↔ b.key ≤ a.key := by
  rw [← not_lt, ← Addr.Less_iff]; simp

/-- The two exits of `ASofIP`, for any table: with `c` the index found by `sort.Search`,
either `c = 0` and the result is 0, or record `c - 1` starts at or before the address and
only its `endIP` decides the result. -/
theorem ASofIP_eq (m : Map) (a : Addr) :
    ∃ c, c ≤ m.recs.length ∧
      (∀ h : c < m.recs.length, a.Less (m.recs.get ⟨c, h⟩).startIP = true) ∧
      ((c = 0 ∧ m.ASofIP a = some 0) ∨
        (∃ h : c - 1 < m.recs.length, 0 < c ∧
          a.Less (m.recs.get ⟨c - 1, h⟩).startIP = false ∧
          m.ASofIP a = some (if (m.recs.get ⟨c - 1, h⟩).endIP.Less a = true then 0
            else (m.recs.get ⟨c - 1, h⟩).asn))) := by
  obtain ⟨h1, h2, h3⟩ := Search_spec m.recs.length (fun i => a.Less (m.recs.get i).startIP)
  have hdef : m.ASofIP a = m.recIndexHasIP
      ((Search m.recs.length (fun i => a.Less (m.recs.get i).startIP) : Int) - 1) a := rfl
  generalize Search m.recs.length (fun i => a.Less (m.recs.get i).startIP) = c at h1 h2 h3 hdef
  refine ⟨c, h1, h3, ?_⟩
  by_cases hc : c = 0
  · left
    refine ⟨hc, ?_⟩
    rw [hdef, hc]
    rfl
  · right
    have hpos : 0 < c := by omega
    have hlt : c - 1 < m.recs.length := by omega
    have hf := h2 hlt hpos
    refine ⟨hlt, hpos, hf, ?_⟩
    rw [hdef]
    unfold Map.recIndexHasIP
    have hi : ¬ ((c : Int) - 1 < 0) := by omega
    have ht : ((c : Int) - 1).toNat = c - 1 := by omega
    rw [if_neg hi, ht, List.getElem?_eq_getElem hlt]
    simp only [List.get_eq_getElem] at hf ⊢
    by_cases he : (m.recs[c - 1]).endIP.Less a = true
    · rw [if_pos he, if_pos he]
    · rw [if_neg he, if_neg he, if_neg (by simp [hf])]

/-- Lookup never invents an owner: the result is 0 or the ASN of a record that holds
the address. -/
theorem ASofIP_sound (m : Map) (a : Addr) :
    m.ASofIP a = some 0 ∨ ∃ r ∈ m.recs, Contains r a ∧ m.ASofIP a = some r.asn := by
  obtain ⟨c, _, _, h | ⟨h, _, hs, hr⟩⟩ := ASofIP_eq m a
  · exact Or.inl h.2
  · by_cases he : (m.recs.get ⟨c - 1, h⟩).endIP.Less a = true
    · left; rw [hr, if_pos he]
    · right
      refine ⟨m.recs.get ⟨c - 1, h⟩, List.get_mem _ _ _, ⟨?_, ?_⟩, ?_⟩
      · rw [Addr.le_iff_not_Less]; exact hs
      · rw [Addr.le_iff_not_Less]; simpa using he
      · rw [hr, if_neg he]

theorem ASofIP_of_not_contained (m : Map) (a : Addr) (h : ∀ r ∈ m.recs, ¬ Contains r a) :
    m.ASofIP a = some 0 := by
  rcases ASofIP_sound m a with h0 | ⟨r, hr, hc, _⟩
  · exact h0
  · exact absurd hc (h r hr)

theorem sorted_get {recs : List rec} (hs : SortedByStart recs) (i j : Nat)
    (hi : i < recs.length) (hj : j < recs.length) (hij : i ≤ j) :
    (recs.get ⟨i, hi⟩).startIP.key ≤ (recs.get ⟨j, hj⟩).startIP.key := by
  haveI : IsTrans rec (fun r s => r.startIP.le s.startIP) :=
    ⟨fun a b c h1 h2 => by
      rw [Addr.le_iff] at h1 h2 ⊢
      exact le_trans h1 h2⟩
  rcases Nat.eq_or_lt_of_le hij with h | h
  · subst h; exact le_refl _
  · have hp := List.chain'_iff_pairwise.mp hs
    have := List.pairwise_iff_get.mp hp ⟨i, hi⟩ ⟨j, hj⟩ h
    exact (Addr.le_iff _ _).mp this

theorem nonOverlapping_get {recs : List rec} (hs : SortedByStart recs)
    (hn : NonOverlapping recs) (i j : Nat) (hi : i < recs.length) (hj : j < recs.length)
    (hij : i < j) :
    (recs.get ⟨i, hi⟩).endIP.key < (recs.get ⟨j, hj⟩).startIP.key := by
  have h1 := List.chain'_iff_get.mp hn i (by omega)
  have h2 := sorted_get hs (i + 1) j (by omega) hj (by omega)
  exact lt_of_lt_of_le ((Addr.Less_iff _ _).mp h1) h2

theorem ASofIP_get (m : Map) (hs : SortedByStart m.recs) (hn : NonOverlapping m.recs)
    (k : Nat) (hk : k < m.recs.length) (a : Addr) (hc : Contains (m.recs.get ⟨k, hk⟩) a) :
    m.ASofIP a = some (m.recs.get ⟨k, hk⟩).asn := by
  have hsa := (Addr.le_iff _ _).mp hc.1
  have hae := (Addr.le_iff _ _).mp hc.2
  obtain ⟨c, hcn, htrue, h | ⟨h, hpos, hfalse, hr⟩⟩ := ASofIP_eq m a
  · exfalso
    have h0 : c < m.recs.length := by omega
    have h1 := (Addr.Less_iff _ _).mp (htrue h0)
    have h2 := sorted_get hs c k h0 hk (by omega)
    exact absurd (lt_of_lt_of_le h1 (le_trans h2 hsa)) (lt_irrefl _)
  · have hck : k < c := by
      by_contra hcon
      have h0 : c < m.recs.length := by omega
      have h1 := (Addr.Less_iff _ _).mp (htrue h0)
      have h2 := sorted_get hs c k h0 hk (by omega)
      exact absurd (lt_of_lt_of_le h1 (le_trans h2 hsa)) (lt_irrefl _)
    have hkc : c - 1 = k := by
      by_contra hcon
      have h1 := nonOverlapping_get hs hn k (c - 1) hk h (by omega)
      have h2 := (Addr.Less_eq_false_iff _ _).mp hfalse
      exact absurd (lt_of_le_of_lt (le_trans h2 hae) h1) (lt_irrefl _)
    subst hkc
    rw [hr, if_neg]
    rw [Bool.not_eq_true, Addr.Less_eq_false_iff]
    exact hae


/-- C1 (range containment). In a table sorted by `startIP` whose records do not overlap,
every address inside a record's inclusive range resolves to that record's ASN. -/
theorem C1_range_containment (m : Map) (hs : SortedByStart m.recs)
    (hn : NonOverlapping m.recs) (r : rec) (hr : r ∈ m.recs) (a : Addr)
    (h1 : r.startIP.le a) (h2 : a.le r.endIP) : m.ASofIP a = some r.asn := by
  obtain ⟨⟨k, hk⟩, rfl⟩ := List.mem_iff_get.mp hr
  exact ASofIP_get m hs hn k hk a ⟨h1, h2⟩

/-- C2 (gap returns unknown). In a sorted, non-overlapping table whose records all have
`startIP <= endIP`, an address before the first record, after the last record, or strictly
between two consecutive records resolves to 0. -/
theorem C2_gap_returns_unknown (m : Map) (hs : SortedByStart m.recs)
    (hn : NonOverlapping m.recs) (hw : ∀ r ∈ m.recs, r.startIP.le r.endIP) (a : Addr)
    (hg : InGap m.recs a) : m.ASofIP a = some 0 := by
  apply ASofIP_of_not_contained
  intro r hr hc
  obtain ⟨⟨j, hj⟩, rfl⟩ := List.mem_iff_get.mp hr
  have hsa := (Addr.le_iff _ _).mp hc.1
  have hae := (Addr.le_iff _ _).mp hc.2
  have hwk : ∀ (i : Nat) (hi : i < m.recs.length),
      (m.recs.get ⟨i, hi⟩).startIP.key ≤ (m.recs.get ⟨i, hi⟩).endIP.key :=
    fun i hi => (Addr.le_iff _ _).mp (hw _ (List.get_mem _ _ _))
  rcases hg with ⟨r0, h0, hlt⟩ | ⟨rl, hl, hlt⟩ | ⟨i, hi, hlt1, hlt2⟩
  · have hpos : 0 < m.recs.length := by omega
    have e0 : m.recs.get ⟨0, hpos⟩ = r0 := by
      rw [List.head?_eq_getElem?, List.getElem?_eq_getElem hpos] at h0
      simpa using h0
    have h2 := sorted_get hs 0 j hpos hj (Nat.zero_le _)
    rw [e0] at h2
    have h3 := (Addr.Less_iff _ _).mp hlt
    exact absurd (lt_of_lt_of_le h3 (le_trans h2 hsa)) (lt_irrefl _)
  · have hpos : m.recs.length - 1 < m.recs.length := by omega
    have el : m.recs.get ⟨m.recs.length - 1, hpos⟩ = rl := by
      rw [List.getLast?_eq_getElem?] at hl
      rw [List.getElem?_eq_getElem hpos] at hl
      simpa using hl
    have h3 := (Addr.Less_iff _ _).mp hlt
    rw [← el] at h3
    rcases Nat.eq_or_lt_of_le (Nat.le_sub_one_of_lt hj) with h | h
    · subst h
      exact absurd (lt_of_le_of_lt hae h3) (lt_irrefl _)
    · have h4 := nonOverlapping_get hs hn j (m.recs.length - 1) hj hpos h
      have h5 := hwk (m.recs.length - 1) hpos
      exact absurd (lt_of_le_of_lt hae (lt_trans (lt_of_lt_of_le h4 h5) h3)) (lt_irrefl _)
  · have hi0 : i < m.recs.length := by omega
    have h3 := (Addr.Less_iff _ _).mp hlt1
    have h4 := (Addr.Less_iff _ _).mp hlt2
    rcases Nat.lt_trichotomy j i with h | h | h
    · have h5 := nonOverlapping_get hs hn j i hj hi0 h
      have h6 := hwk i hi0
      exact absurd (lt_of_le_of_lt hae (lt_trans (lt_of_lt_of_le h5 h6) h3)) (lt_irrefl _)
    · subst h
      exact absurd (lt_of_le_of_lt hae h3) (lt_irrefl _)
    · have h5 := sorted_get hs (i + 1) j hi hj (by omega)
      exact absurd (lt_of_lt_of_le h4 (le_trans h5 hsa)) (lt_irrefl _)

/-! ## parseTSV -/

theorem IndexByte_eq_none (l : List Byte) (c : Byte) : IndexByte l c = none ↔ c ∉ l := by
  induction l with
  | nil => simp [IndexByte]
  | cons b bs ih =>
    unfold IndexByte
    by_cases h : b = c
    · simp [h]
    · rw [if_neg h]
      simp [ih, h, Ne.symm h]

theorem IndexByte_eq_some (l : List Byte) (c : Byte) (i : Nat) (h : IndexByte l c = some i) :
    i < l.length ∧ c ∉ l.take i ∧ l.take (i + 1) = l.take i ++ [c] ∧
      l.take i = l.takeWhile (· ≠ c) ∧ l.count c = (l.drop (i + 1)).count c + 1 := by
  induction l generalizing i with
  | nil => simp [IndexByte] at h
  | cons b bs ih =>
    unfold IndexByte at h
    by_cases hb : b = c
    · rw [if_pos hb] at h
      cases h
      subst hb
      simp
    · rw [if_neg hb] at h
      cases hj : IndexByte bs c with
      | none => rw [hj] at h; simp at h
      | some j =>
        rw [hj] at h
        simp at h
        subst h
        obtain ⟨h1, h2, h3, h4, h5⟩ := ih j hj
        refine ⟨by simp; omega, ?_, ?_, ?_, ?_⟩
        · simp [List.take_succ_cons, h2, Ne.symm hb]
        · simp [List.take_succ_cons, h3]
        · simp [List.take_succ_cons, h4, List.takeWhile_cons, hb]
        · simp [List.count_cons, hb, h5]

theorem field_zero_of_none (l : List Byte) (h : IndexByte l 9 = none) : field 0 l = l := by
  unfold field dropFields
  rw [List.takeWhile_eq_self_iff]
  intro x hx
  have := (IndexByte_eq_none l 9).mp h
  simp
  rintro rfl
  exact this hx

theorem field_zero_of_some (l : List Byte) (i : Nat) (h : IndexByte l 9 = some i) :
    field 0 l = l.take i := by
  unfold field dropFields
  exact (IndexByte_eq_some l 9 i h).2.2.2.1.symm

theorem field_succ_of_some (l : List Byte) (i k : Nat) (h : IndexByte l 9 = some i) :
    field (k + 1) l = field k (l.drop (i + 1)) := by
  unfold field
  rw [dropFields, h]

/-- What the loop of `parseTSV` stores: with enough tabs for all but the last destination,
destination `j` receives field `j`. -/
theorem parseTSVLoop_ok : ∀ (k : Nat) (line : List Byte), k ≤ line.count 9 + 1 →
    parseTSVLoop k line = .ok ((List.range k).map (fun j => field j line))
  | 0, _, _ => rfl
  | k + 1, line, hk => by
    unfold parseTSVLoop
    cases hi : IndexByte line 9 with
    | none =>
      have hc : line.count 9 = 0 := List.count_eq_zero.mpr ((IndexByte_eq_none line 9).mp hi)
      have hk0 : k = 0 := by omega
      subst hk0
      simp [parseTSVLoop, field_zero_of_none line hi, List.range_succ_eq_map]
    | some i =>
      have hs := IndexByte_eq_some line 9 i hi
      have ih := parseTSVLoop_ok k (line.drop (i + 1)) (by omega)
      simp only [ih, List.range_succ_eq_map, List.map_cons, List.map_map]
      rw [field_zero_of_some line i hi]
      congr 2
      apply List.map_congr_left
      intro j _
      simp [field_succ_of_some line i j hi]

/-- With too few tabs the loop of `parseTSV` fails. -/
theorem parseTSVLoop_error : ∀ (k : Nat) (line : List Byte), line.count 9 + 1 < k →
    ∃ e, parseTSVLoop k line = .error e
  | 0, _, hk => by omega
  | k + 1, line, hk => by
    unfold parseTSVLoop
    cases hi : IndexByte line 9 with
    | none =>
      have hk0 : ¬ k = 0 := by omega
      simp [hk0]
    | some i =>
      have hs := IndexByte_eq_some line 9 i hi
      obtain ⟨e, he⟩ := parseTSVLoop_error k (line.drop (i + 1)) (by omega)
      simp [he]

theorem parseTSV_ok (line : List Byte) (h : 4 ≤ (stripNL line).count 9) :
    parseTSV line 5 = .ok [field 0 (stripNL line), field 1 (stripNL line),
      field 2 (stripNL line), field 3 (stripNL line), field 4 (stripNL line)] := by
  have := parseTSVLoop_ok 5 (stripNL line) (by omega)
  simpa [parseTSV, stripNL, List.range_succ_eq_map] using this

theorem parseTSV_error (line : List Byte) (h : (stripNL line).count 9 < 4) :
    ∃ e, parseTSV line 5 = .error e :=
  parseTSVLoop_error 5 (stripNL line) (by omega)

/-- C8. `parseTSV` with five destinations fails exactly when the line, after one trailing
newline is removed, has fewer than four tab bytes; the empty line fails and a line of
exactly four tabs is accepted (with an empty description). -/
theorem C8_parseTSV_error_iff (line : List Byte) :
    ((∃ e, parseTSV line 5 = .error e) ↔ (stripNL line).count 9 < 4) ∧
      (∃ e, parseTSV [] 5 = .error e) ∧
      parseTSV (str "\t\t\t\t") 5 = .ok [[], [], [], [], []] := by
  refine ⟨⟨?_, parseTSV_error line⟩, ⟨_, rfl⟩, by decide⟩
  rintro ⟨e, he⟩
  by_contra hcon
  rw [parseTSV_ok line (by omega)] at he
  cases he


/-- C9, as stated, fails: a description with an embedded tab is cut at that tab. On the
line `a⇥b⇥c⇥d⇥e⇥f` the bytes after the fourth tab are `e⇥f`, the description stored is `e`. -/
theorem C9_counterexample :
    parseTSV (str "a\tb\tc\td\te\tf\n") 5 = .ok [str "a", str "b", str "c", str "d", str "e"] ∧
      dropFields 4 (stripNL (str "a\tb\tc\td\te\tf\n")) = str "e\tf" := by
  decide

/-- C9, amended. For every line with at least four tabs, the description `parseTSV` stores
is the bytes after the fourth tab up to the next tab, or up to the end of the line (one
trailing newline excluded) when there is none; it holds no tab byte, and it is the whole
remainder of the line exactly when that remainder holds no tab. -/
theorem C9_description_field (line : List Byte) (h : 4 ≤ (stripNL line).count 9) :
    ∃ d, parseTSV line 5 = .ok d ∧
      d.getD 4 [] = (dropFields 4 (stripNL line)).takeWhile (· ≠ 9) ∧
      9 ∉ d.getD 4 [] ∧
      (d.getD 4 [] = dropFields 4 (stripNL line) ↔ 9 ∉ dropFields 4 (stripNL line)) := by
  refine ⟨_, parseTSV_ok line h, rfl, ?_, ?_⟩
  · intro hmem
    have := List.mem_takeWhile_imp hmem
    simp at this
  · show field 4 (stripNL line) = _ ↔ _
    unfold field
    rw [List.takeWhile_eq_self_iff]
    constructor
    · intro hall hmem
      have := hall 9 hmem
      simp at this
    · intro hnot x hx
      simp only [ne_eq, decide_not, Bool.not_eq_true', decide_eq_false_iff_not]
      rintro rfl
      exact hnot hx

theorem C9_description_field_witness :
    ∃ d, parseTSV (str "a\tb\tc\td\te\tf\n") 5 = .ok d ∧
      d.getD 4 [] = (dropFields 4 (stripNL (str "a\tb\tc\td\te\tf\n"))).takeWhile (· ≠ 9) ∧
      9 ∉ d.getD 4 [] ∧
      (d.getD 4 [] = dropFields 4 (stripNL (str "a\tb\tc\td\te\tf\n")) ↔
        9 ∉ dropFields 4 (stripNL (str "a\tb\tc\td\te\tf\n"))) :=
  C9_description_field (str "a\tb\tc\td\te\tf\n") (by decide)

/-! ## The loader, line by line -/

theorem splitLines_of_none (l : List Byte) (h : IndexByte l 10 = none) :
    splitLines l = ([], l) := by
  induction l with
  | nil => rfl
  | cons b bs ih =>
    unfold IndexByte at h
    by_cases hb : b = 10
    · rw [if_pos hb] at h; cases h
    · rw [if_neg hb] at h
      have hbs : IndexByte bs 10 = none := by
        cases hx : IndexByte bs 10 with
        | none => rfl
        | some j => rw [hx] at h; simp at h
      simp [splitLines, hb, ih hbs]

theorem splitLines_of_some (l : List Byte) (i : Nat) (h : IndexByte l 10 = some i) :
    splitLines l = (l.take (i + 1) :: (splitLines (l.drop (i + 1))).1,
      (splitLines (l.drop (i + 1))).2) := by
  induction l generalizing i with
  | nil => simp [IndexByte] at h
  | cons b bs ih =>
    unfold IndexByte at h
    by_cases hb : b = 10
    · rw [if_pos hb] at h
      cases h
      simp [splitLines, hb]
    · rw [if_neg hb] at h
      cases hx : IndexByte bs 10 with
      | none => rw [hx] at h; simp at h
      | some j =>
        rw [hx] at h
        simp at h
        subst h
        simp [splitLines, hb, ih j hx]

theorem IndexByte_take (l : List Byte) (c : Byte) (k : Nat) :
    IndexByte (l.take k) c =
      match IndexByte l c with
      | none => none
      | some i => if i < k then some i else none := by
  induction l generalizing k with
  | nil => simp [IndexByte]
  | cons b bs ih =>
    cases k with
    | zero =>
      rw [List.take_zero]
      cases IndexByte (b :: bs) c <;> simp [IndexByte]
    | succ k =>
      simp only [List.take_succ_cons, IndexByte]
      by_cases hb : b = c
      · simp [hb]
      · simp only [if_neg hb, ih k]
        cases IndexByte bs c with
        | none => rfl
        | some j =>
          by_cases hj : j < k <;> simp [hj]

/-- The loop of `OpenReader` run with enough fuel is the line-by-line account: it ends, and
with the result `runLines` gives. -/
theorem readLoop_eq_runLines (L : Lib) : ∀ (fuel : Nat) (data : List Byte) (e : Error) (m : Map),
    data.length < fuel →
    readLoop L fuel ⟨data, e⟩ m =
      some (runLines L (splitLines data).1 (splitLines data).2 e m) := by
  intro fuel
  induction fuel with
  | zero => intro data e m h; omega
  | succ fuel ih =>
    intro data e m hlen
    unfold readLoop Reader.ReadSlice
    simp only [IndexByte_take]
    cases hi : IndexByte data 10 with
    | none =>
      simp only [splitLines_of_none data hi, runLines, finish]
      by_cases hfull : defaultBufSize ≤ data.length
      · simp [hfull]
      · simp only [if_neg hfull]
        by_cases he : e = .EOF <;> simp [he]
    | some i =>
      have hs := IndexByte_eq_some data 10 i hi
      rw [splitLines_of_some data i hi]
      simp only [runLines]
      have hl : (data.take (i + 1)).length = i + 1 := by
        rw [List.length_take]; omega
      by_cases hfit : i < defaultBufSize
      · simp only [if_pos hfit]
        rw [if_neg (by rw [hl]; omega)]
        cases hp : processLine L (data.take (i + 1)) m with
        | error err => rfl
        | ok m' =>
          simp only []
          exact ih (data.drop (i + 1)) e m' (by rw [List.length_drop]; omega)
      · simp only [if_neg hfit]
        have : defaultBufSize ≤ data.length := by omega
        rw [if_pos this, if_pos (by rw [hl]; omega)]
        simp


/-- The function `OpenReader` always returns, and what it returns is the line-by-line
account. -/
theorem OpenReader_eq (L : Lib) (r : List Byte) :
    OpenReader L r = some (OpenReaderLines L r) := by
  unfold OpenReader OpenReaderLines Reader.Peek isGzip
  simp only []
  by_cases hlen : 2 ≤ r.length
  · rw [if_pos hlen, if_neg (by omega)]
    simp only []
    by_cases hz : r.take 2 = [0x1f, 0x8b]
    · rw [if_pos hz, if_pos (by simp [hz])]
      cases hg : L.gzipNewReader r with
      | error e => rfl
      | ok zr =>
        simp only []
        exact readLoop_eq_runLines L _ zr.data zr.err Map.empty (by omega)
    · rw [if_neg hz, if_neg (by simp [hz])]
      exact readLoop_eq_runLines L _ r .EOF Map.empty (by omega)
  · rw [if_neg hlen, if_pos (by omega)]

theorem processLine_short (L : Lib) (l : List Byte) (m : Map) (h : hasFourTabs l = false) :
    ∃ e, processLine L l m = .error e := by
  obtain ⟨e, he⟩ := parseTSV_error l (by simpa [hasFourTabs] using h)
  exact ⟨e, by simp [processLine, he]⟩

theorem processLine_notRouted (L : Lib) (l : List Byte) (m : Map) (h : hasFourTabs l = true)
    (hn : isNotRouted l = true) : processLine L l m = .ok m := by
  have hp := parseTSV_ok l (by simpa [hasFourTabs] using h)
  have hd : field 4 (stripNL l) = str "Not routed" := by simpa [isNotRouted, descField] using hn
  simp [processLine, hp, hd]

theorem processLine_retained (L : Lib) (l : List Byte) (m : Map) (h : hasFourTabs l = true)
    (hn : isNotRouted l = false) :
    processLine L l m =
      match L.ParseInt (asnField l) with
      | none => .error (.bogusASN (asnField l) l)
      | some as =>
        match L.ParseAddr (startField l) with
        | none => .error (.bogusIP (startField l) l)
        | some s =>
          match L.ParseAddr (endField l) with
          | none => .error (.bogusIP (endField l) l)
          | some e => .ok (addLine m as (descField l) (countryField l) ⟨s, e, as⟩) := by
  have hp := parseTSV_ok l (by simpa [hasFourTabs] using h)
  have hd : ¬ field 4 (stripNL l) = str "Not routed" := by
    simpa [isNotRouted, descField] using hn
  unfold processLine
  rw [hp]
  simp only [List.getD_cons_zero, List.getD_cons_succ, if_neg hd]
  unfold asnField startField endField
  cases hA : L.ParseInt (field 2 (stripNL l)) with
  | none => rfl
  | some as =>
    simp only []
    cases hS : L.ParseAddr (field 0 (stripNL l)) with
    | none => rfl
    | some s =>
      simp only []
      cases hE : L.ParseAddr (field 1 (stripNL l)) with
      | none => rfl
      | some e =>
        simp only []
        unfold addLine descField countryField
        by_cases hk : (m.asName as).isNone = true
        · simp [hk]
        · simp [hk]


theorem processLine_ok_cases (L : Lib) (l : List Byte) (m m1 : Map)
    (h : processLine L l m = .ok m1) :
    hasFourTabs l = true ∧
      ((isNotRouted l = true ∧ m1 = m) ∨
        (isNotRouted l = false ∧ ∃ s e as, L.ParseAddr (startField l) = some s ∧
          L.ParseAddr (endField l) = some e ∧ L.ParseInt (asnField l) = some as ∧
          m1 = addLine m as (descField l) (countryField l) ⟨s, e, as⟩)) := by
  cases h4 : hasFourTabs l with
  | false =>
    obtain ⟨e, he⟩ := processLine_short L l m h4
    rw [he] at h; cases h
  | true =>
    refine ⟨rfl, ?_⟩
    cases hn : isNotRouted l with
    | true =>
      rw [processLine_notRouted L l m h4 hn] at h
      cases h
      exact Or.inl ⟨rfl, rfl⟩
    | false =>
      right
      refine ⟨rfl, ?_⟩
      rw [processLine_retained L l m h4 hn] at h
      cases hA : L.ParseInt (asnField l) with
      | none => rw [hA] at h; cases h
      | some as =>
        cases hS : L.ParseAddr (startField l) with
        | none => rw [hA, hS] at h; cases h
        | some s =>
          cases hE : L.ParseAddr (endField l) with
          | none => rw [hA, hS, hE] at h; cases h
          | some e =>
            rw [hA, hS, hE] at h
            cases h
            exact ⟨s, e, as, rfl, rfl, rfl, rfl⟩

/-- What a successful run over the lines leaves behind. -/
theorem runLines_ok (L : Lib) : ∀ (ls : List (List Byte)) (rest : List Byte) (e : Error)
    (m m' : Map), runLines L ls rest e m = .ok m' →
    (∀ l ∈ ls, hasFourTabs l = true ∧ l.length ≤ defaultBufSize ∧
      (isNotRouted l = false → (recOfLine L l).isSome = true)) ∧
    rest.length < defaultBufSize ∧ e = .EOF ∧
    m'.recs.map some = m.recs.map some ++ (retained ls).map (recOfLine L) ∧
    (∀ x, m'.asName x =
      match m.asName x with
      | some v => some v
      | none => (firstLineOf L ls x).map descField) ∧
    (∀ x, m'.asCountry x =
      match m.asName x with
      | some _ => m.asCountry x
      | none =>
        match firstLineOf L ls x with
        | some l => some (countryField l)
        | none => m.asCountry x) := by
  intro ls
  induction ls with
  | nil =>
    intro rest e m m' h
    unfold runLines finish at h
    by_cases hfull : defaultBufSize ≤ rest.length
    · rw [if_pos hfull] at h; cases h
    · rw [if_neg hfull] at h
      by_cases he : e = .EOF
      · rw [if_pos he] at h
        cases h
        refine ⟨by simp, by omega, he, by simp [retained], ?_, ?_⟩
        · intro x; cases m.asName x <;> simp [firstLineOf, retained]
        · intro x; cases m.asName x <;> simp [firstLineOf, retained]
      · rw [if_neg he] at h; cases h
  | cons l ls ih =>
    intro rest e m m' h
    unfold runLines at h
    by_cases hbig : defaultBufSize < l.length
    · rw [if_pos hbig] at h; cases h
    · rw [if_neg hbig] at h
      cases hp : processLine L l m with
      | error err => rw [hp] at h; cases h
      | ok m1 =>
        rw [hp] at h
        simp only [] at h
        obtain ⟨i1, i2, i3, i4, i5, i6⟩ := ih rest e m1 m' h
        obtain ⟨h4, ⟨hn, rfl⟩ | ⟨hn, s, en, as, hS, hE, hA, rfl⟩⟩ := processLine_ok_cases L l m m1 hp
        · have hret : retained (l :: ls) = retained ls := by simp [retained, hn]
          refine ⟨?_, i2, i3, ?_, ?_, ?_⟩
          · intro x hx
            rcases List.mem_cons.mp hx with rfl | hx
            · exact ⟨h4, by omega, fun hc => by rw [hn] at hc; cases hc⟩
            · exact i1 x hx
          · rw [hret]; exact i4
          · intro x; rw [i5 x]; simp [firstLineOf, hret]
          · intro x; rw [i6 x]; simp [firstLineOf, hret]
        · have hret : retained (l :: ls) = l :: retained ls := by simp [retained, hn]
          have hrec : recOfLine L l = some ⟨s, en, as⟩ := by simp [recOfLine, hS, hE, hA]
          refine ⟨?_, i2, i3, ?_, ?_, ?_⟩
          · intro x hx
            rcases List.mem_cons.mp hx with rfl | hx
            · exact ⟨h4, by omega, fun _ => by simp [hrec]⟩
            · exact i1 x hx
          · rw [i4, hret]
            simp [addLine, hrec]
          · intro x
            rw [i5 x]
            unfold firstLineOf
            rw [hret, List.find?_cons, hA]
            by_cases hx : x = as
            · subst hx
              cases hm : m.asName x with
              | none => simp [addLine, hm]
              | some v => simp [addLine, hm]
            · have hx' : ¬ as = x := fun h => hx h.symm
              cases hm : m.asName x with
              | none => simp [addLine, hm, hx, hx']
              | some v => simp [addLine, hm, hx]
          · intro x
            rw [i6 x]
            unfold firstLineOf
            rw [hret, List.find?_cons, hA]
            by_cases hx : x = as
            · subst hx
              cases hm : m.asName x with
              | none => simp [addLine, hm]
              | some v => simp [addLine, hm]
            · have hx' : ¬ as = x := fun h => hx h.symm
              cases hm : m.asName x with
              | none => simp [addLine, hm, hx, hx']
              | some v => simp [addLine, hm, hx]


theorem runLines_error (L : Lib) (ls : List (List Byte)) (rest : List Byte) (e : Error) (m : Map)
    (h : ∃ l ∈ ls, hasFourTabs l = false ∨ (isNotRouted l = false ∧ recOfLine L l = none)) :
    ∃ err, runLines L ls rest e m = .error err := by
  cases hr : runLines L ls rest e m with
  | error err => exact ⟨err, rfl⟩
  | ok m' =>
    exfalso
    obtain ⟨l, hl, hbad⟩ := h
    obtain ⟨h4, _, hrec⟩ := (runLines_ok L ls rest e m m' hr).1 l hl
    rcases hbad with hb | ⟨hn, hb⟩
    · rw [h4] at hb; cases hb
    · have := hrec hn
      rw [hb] at this
      cases this

/-- A successful `OpenReader` is a successful run over the lines of the stream. -/
theorem OpenReader_ok (L : Lib) (r : List Byte) (m : Map) (h : OpenReader L r = some (.ok m)) :
    2 ≤ r.length ∧
      runLines L (inputLines L r) (splitLines (stream L r).data).2 (stream L r).err Map.empty
        = .ok m := by
  rw [OpenReader_eq] at h
  have h' : OpenReaderLines L r = .ok m := by injection h
  unfold OpenReaderLines at h'
  by_cases hlen : r.length < 2
  · rw [if_pos hlen] at h'; cases h'
  · rw [if_neg hlen] at h'
    refine ⟨by omega, ?_⟩
    unfold inputLines stream
    by_cases hz : isGzip r = true
    · rw [if_pos hz] at h'
      rw [if_pos hz]
      cases hg : L.gzipNewReader r with
      | error e => rw [hg] at h'; cases h'
      | ok zr => rw [hg] at h'; exact h'
    · rw [if_neg hz] at h'
      rw [if_neg hz]
      exact h'

theorem OpenReader_error_of_bad_line (L : Lib) (r : List Byte)
    (h : ∃ l ∈ inputLines L r,
      hasFourTabs l = false ∨ (isNotRouted l = false ∧ recOfLine L l = none)) :
    ∃ e, OpenReader L r = some (.error e) := by
  rw [OpenReader_eq]
  cases hr : OpenReaderLines L r with
  | error e => exact ⟨e, rfl⟩
  | ok m =>
    exfalso
    have hok : OpenReader L r = some (.ok m) := by rw [OpenReader_eq, hr]
    obtain ⟨_, hrun⟩ := OpenReader_ok L r m hok
    obtain ⟨err, herr⟩ := runLines_error L _ _ _ Map.empty h
    rw [herr] at hrun
    cases hrun

theorem loaded_eq_some (L : Lib) (r : List Byte) (m : Map) :
    loaded L r = some m ↔ OpenReader L r = some (.ok m) := by
  unfold loaded
  cases h : OpenReader L r with
  | none => simp
  | some res =>
    cases res with
    | error e => simp
    | ok m' => simp

theorem failure_eq_some (L : Lib) (r : List Byte) (e : Error) :
    failure L r = some e ↔ OpenReader L r = some (.error e) := by
  unfold failure
  cases h : OpenReader L r with
  | none => simp
  | some res =>
    cases res with
    | error e => simp
    | ok m' => simp

theorem splitLines_rest_nil (P : List Byte) (h : P = [] ∨ P.getLast? = some 10) :
    (splitLines P).2 = [] := by
  rcases h with rfl | h
  · rfl
  · have key : ∀ (Q : List Byte), Q.getLast? = some 10 →
        (splitLines Q).2 = [] ∧ (splitLines Q).1 ≠ [] := by
      intro Q
      induction Q with
      | nil => intro hq; simp at hq
      | cons b bs ih =>
        intro hq
        cases bs with
        | nil =>
          have hb : b = 10 := by simpa using hq
          subst hb
          simp [splitLines]
        | cons c cs =>
          have hq' : (c :: cs).getLast? = some 10 := by
            rw [List.getLast?_cons_cons] at hq; exact hq
          obtain ⟨i1, i2⟩ := ih hq'
          unfold splitLines
          by_cases hb : b = 10
          · rw [if_pos hb]; exact ⟨i1, by simp⟩
          · rw [if_neg hb]
            cases hsp : splitLines (c :: cs) with
            | mk ls t =>
              rw [hsp] at i1 i2
              cases ls with
              | nil => exact absurd rfl i2
              | cons l ls' => exact ⟨i1, by simp⟩
    exact (key P h).1

theorem splitLines_cons (b : Byte) (bs : List Byte) :
    splitLines (b :: bs) =
      if b = 10 then ([10] :: (splitLines bs).1, (splitLines bs).2)
      else
        match splitLines bs with
        | ([], t) => ([], b :: t)
        | (l :: ls, t) => ((b :: l) :: ls, t) := rfl

theorem splitLines_append (P Y : List Byte) (h : (splitLines P).2 = []) :
    splitLines (P ++ Y) = ((splitLines P).1 ++ (splitLines Y).1, (splitLines Y).2) := by
  induction P with
  | nil => simp [splitLines]
  | cons b bs ih =>
    rw [List.cons_append, splitLines_cons]
    rw [splitLines_cons] at h
    by_cases hb : b = 10
    · rw [if_pos hb] at h ⊢
      simp only [] at h
      rw [ih h]
      simp [splitLines_cons, hb]
    · rw [if_neg hb] at h ⊢
      cases hsp : splitLines bs with
      | mk ls t =>
        rw [hsp] at h ih
        cases ls with
        | nil => simp at h
        | cons l ls' =>
          simp only [] at h
          rw [ih h]
          simp [splitLines_cons, hb, hsp]

theorem splitLines_line (body Y : List Byte) (h : 10 ∉ body) :
    splitLines (body ++ [10] ++ Y) = ((body ++ [10]) :: (splitLines Y).1, (splitLines Y).2) := by
  induction body with
  | nil => simp [splitLines_cons]
  | cons b bs ih =>
    have hb : ¬ b = 10 := fun hb => h (by simp [hb])
    have hbs : 10 ∉ bs := fun hm => h (List.mem_cons_of_mem _ hm)
    have := ih hbs
    simp only [List.cons_append, List.append_assoc, List.singleton_append] at this ⊢
    rw [splitLines_cons, if_neg hb, this]

theorem runLines_insert (L : Lib) (nr : List Byte) (hlen : nr.length ≤ defaultBufSize)
    (h4 : hasFourTabs nr = true) (hn : isNotRouted nr = true) :
    ∀ (A B : List (List Byte)) (rest : List Byte) (e : Error) (m : Map),
      runLines L (A ++ nr :: B) rest e m = runLines L (A ++ B) rest e m := by
  intro A
  induction A with
  | nil =>
    intro B rest e m
    simp only [List.nil_append]
    rw [runLines, if_neg (by omega), processLine_notRouted L nr m h4 hn]
  | cons a A ih =>
    intro B rest e m
    simp only [List.cons_append]
    unfold runLines
    by_cases hbig : defaultBufSize < a.length
    · rw [if_pos hbig, if_pos hbig]
    · rw [if_neg hbig, if_neg hbig]
      cases hp : processLine L a m with
      | error err => rfl
      | ok m1 => exact ih B rest e m1

/-! ## Lookup: the claims on concrete tables, and the meaning of 0 -/

theorem OpenReader_of_loaded (L : Lib) (r : List Byte) (h : (loaded L r).isSome = true) :
    OpenReader L r = some (.ok ((loaded L r).getD Map.empty)) := by
  cases hl : loaded L r with
  | none => rw [hl] at h; cases h
  | some m => exact (loaded_eq_some L r m).mp hl

/-- Loading the test's `subset` succeeds and yields the 22 records `subsetRecs`. -/
theorem subsetMap_recs : (loaded goLib subset).isSome = true ∧ subsetMap.recs = subsetRecs := by
  decide!

theorem C1_range_containment_witness :
    SortedByStart subsetMap.recs ∧ NonOverlapping subsetMap.recs ∧
      (netipParseAddr (str "1.0.64.0")).bind subsetMap.ASofIP = some 18144 ∧
      (netipParseAddr (str "1.0.65.0")).bind subsetMap.ASofIP = some 18144 ∧
      (netipParseAddr (str "1.0.127.255")).bind subsetMap.ASofIP = some 18144 ∧
      (netipParseAddr (str "2c0f:ffc8:ffff:ffff:ffff:ffff:ffff:fffe")).bind subsetMap.ASofIP
        = some 22355 := by
  have hr := subsetMap_recs.2
  have hs : SortedByStart subsetMap.recs := by rw [hr]; decide!
  have hn : NonOverlapping subsetMap.recs := by rw [hr]; decide!
  have r1 : (⟨⟨0, 281470698536960, .z4⟩, ⟨0, 281470698553343, .z4⟩, 18144⟩ : rec)
      ∈ subsetMap.recs := by rw [hr]; decide!
  have r2 : (⟨⟨3175037496778031104, 0, .z6 []⟩,
      ⟨3175037501072998399, 18446744073709551615, .z6 []⟩, 22355⟩ : rec)
      ∈ subsetMap.recs := by rw [hr]; decide!
  have a1 : netipParseAddr (str "1.0.64.0") = some ⟨0, 281470698536960, .z4⟩ := by decide!
  have a2 : netipParseAddr (str "1.0.65.0") = some ⟨0, 281470698537216, .z4⟩ := by decide!
  have a3 : netipParseAddr (str "1.0.127.255") = some ⟨0, 281470698553343, .z4⟩ := by decide!
  have a4 : netipParseAddr (str "2c0f:ffc8:ffff:ffff:ffff:ffff:ffff:fffe")
      = some ⟨3175037501072998399, 18446744073709551614, .z6 []⟩ := by decide!
  exact ⟨hs, hn,
    (congrArg (fun o => Option.bind o subsetMap.ASofIP) a1).trans
      (C1_range_containment subsetMap hs hn _ r1 _ (by decide!) (by decide!)),
    (congrArg (fun o => Option.bind o subsetMap.ASofIP) a2).trans
      (C1_range_containment subsetMap hs hn _ r1 _ (by decide!) (by decide!)),
    (congrArg (fun o => Option.bind o subsetMap.ASofIP) a3).trans
      (C1_range_containment subsetMap hs hn _ r1 _ (by decide!) (by decide!)),
    (congrArg (fun o => Option.bind o subsetMap.ASofIP) a4).trans
      (C1_range_containment subsetMap hs hn _ r2 _ (by decide!) (by decide!))⟩

theorem C2_gap_returns_unknown_witness :
    InGap subsetMap.recs ⟨0, 281470698522624, .z4⟩ ∧
      netipParseAddr (str "1.0.8.0") = some ⟨0, 281470698522624, .z4⟩ ∧
      subsetMap.ASofIP ⟨0, 281470698522624, .z4⟩ = some 0 := by
  have hr := subsetMap_recs.2
  have hs : SortedByStart subsetMap.recs := by rw [hr]; decide!
  have hn : NonOverlapping subsetMap.recs := by rw [hr]; decide!
  have hw : ∀ r ∈ subsetMap.recs, r.startIP.le r.endIP := by rw [hr]; decide!
  have hg : InGap subsetMap.recs ⟨0, 281470698522624, .z4⟩ := by
    rw [hr]
    refine Or.inr (Or.inr ⟨1, by decide, ?_, ?_⟩)
    · decide!
    · decide!
  exact ⟨hg, by decide!, C2_gap_returns_unknown subsetMap hs hn hw _ hg⟩

/-- C3, as stated, fails: a kept line may carry ASN 0. The one-line input `zeroAsnInput`
loads (trivially sorted and non-overlapping); 1.0.0.7 lies in its record, and the lookup
returns 0 all the same. -/
theorem C3_counterexample :
    (loaded goLib zeroAsnInput).isSome = true ∧
      SortedByStart zeroAsnMap.recs ∧ NonOverlapping zeroAsnMap.recs ∧
      netipParseAddr (str "1.0.0.7") = some ⟨0, 281470698520583, .z4⟩ ∧
      ¬ (zeroAsnMap.ASofIP ⟨0, 281470698520583, .z4⟩ = some 0 ↔
        ¬ ∃ rc ∈ zeroAsnMap.recs, Contains rc ⟨0, 281470698520583, .z4⟩) := by
  decide!

/-- C3, amended. For every table returned by a successful `OpenReader` whose records are
sorted and non-overlapping, and every address, the lookup returns 0 if and only if no
record with a non-zero ASN holds the address. -/
theorem C3_zero_iff_no_owner (L : Lib) (r : List Byte) (m : Map)
    (_h : OpenReader L r = some (.ok m)) (hs : SortedByStart m.recs)
    (hn : NonOverlapping m.recs) (a : Addr) :
    m.ASofIP a = some 0 ↔ ¬ ∃ rc ∈ m.recs, rc.asn ≠ 0 ∧ Contains rc a := by
  constructor
  · rintro h0 ⟨rc, hrc, hne, hc⟩
    obtain ⟨⟨k, hk⟩, rfl⟩ := List.mem_iff_get.mp hrc
    have := ASofIP_get m hs hn k hk a hc
    rw [h0] at this
    exact hne (Option.some.inj this).symm
  · intro hno
    rcases ASofIP_sound m a with h0 | ⟨rc, hrc, hc, hv⟩
    · exact h0
    · by_cases hz : rc.asn = 0
      · rw [hv, hz]
      · exact absurd ⟨rc, hrc, hz, hc⟩ hno

theorem C3_zero_iff_no_owner_witness :
    OpenReader goLib zeroAsnInput = some (.ok zeroAsnMap) ∧
      (zeroAsnMap.ASofIP ⟨0, 281470698520583, .z4⟩ = some 0 ↔
        ¬ ∃ rc ∈ zeroAsnMap.recs, rc.asn ≠ 0 ∧ Contains rc ⟨0, 281470698520583, .z4⟩) :=
  ⟨OpenReader_of_loaded goLib zeroAsnInput (by decide!),
    C3_zero_iff_no_owner goLib zeroAsnInput zeroAsnMap
      (OpenReader_of_loaded goLib zeroAsnInput (by decide!)) (by decide!) (by decide!) _⟩

/-! ## The loader: the claims -/

theorem recOfLine_eq_none (L : Lib) (l : List Byte) :
    recOfLine L l = none ↔
      L.ParseInt (asnField l) = none ∨ L.ParseAddr (startField l) = none ∨
        L.ParseAddr (endField l) = none := by
  unfold recOfLine
  cases L.ParseAddr (startField l) <;> cases L.ParseAddr (endField l) <;>
    cases L.ParseInt (asnField l) <;> simp

theorem recOfLine_eq_some (L : Lib) (l : List Byte) (rc : rec) (h : recOfLine L l = some rc) :
    L.ParseAddr (startField l) = some rc.startIP ∧ L.ParseAddr (endField l) = some rc.endIP ∧
      L.ParseInt (asnField l) = some rc.asn := by
  unfold recOfLine at h
  cases hs : L.ParseAddr (startField l) <;> cases he : L.ParseAddr (endField l) <;>
    cases ha : L.ParseInt (asnField l) <;> rw [hs, he, ha] at h <;> simp at h
  subst h
  exact ⟨rfl, rfl, rfl⟩

/-- The records of a loaded table are the kept lines of the stream, parsed, in order. -/
theorem recs_of_OpenReader (L : Lib) (r : List Byte) (m : Map)
    (h : OpenReader L r = some (.ok m)) :
    (retained (inputLines L r)).map (recOfLine L) = m.recs.map some := by
  obtain ⟨_, hrun⟩ := OpenReader_ok L r m h
  have h4 := (runLines_ok L _ _ _ _ _ hrun).2.2.2.1
  rw [h4]; simp [Map.empty]

theorem forall_recOfLine_of_all (L : Lib) (ls : List (List Byte)) (p : rec → Bool)
    (h : (ls.all fun l => (recOfLine L l).all p) = true) :
    ∀ l ∈ ls, ∀ rc, recOfLine L l = some rc → p rc = true := by
  intro l hl rc hrc
  have := List.all_eq_true.mp h l hl
  rw [hrc] at this
  simpa using this

/-- C7. On success the records are exactly the kept lines, in input order, each mapped to
its parsed start address, end address and ASN: nothing is sorted, merged or dropped, and
there are as many records as kept lines. -/
theorem C7_records_in_input_order (L : Lib) (r : List Byte) (m : Map)
    (h : OpenReader L r = some (.ok m)) :
    (retained (inputLines L r)).map (recOfLine L) = m.recs.map some ∧
      m.recs.length = (retained (inputLines L r)).length := by
  have h5 := recs_of_OpenReader L r m h
  refine ⟨h5, ?_⟩
  have := congrArg List.length h5
  simpa using this.symm

theorem C7_records_in_input_order_witness :
    OpenReader goLib subset = some (.ok subsetMap) ∧
      (retained (inputLines goLib subset)).map (recOfLine goLib) = subsetMap.recs.map some ∧
      subsetMap.recs.length = (retained (inputLines goLib subset)).length := by
  have h : OpenReader goLib subset = some (.ok subsetMap) := by
    have := OpenReader_of_loaded goLib subset subsetMap_recs.1
    unfold subsetMap
    exact this
  exact ⟨h, C7_records_in_input_order goLib subset subsetMap h⟩

/-- C5. On success, for every ASN carried by at least one kept line, `ASName` and
`ASCountry` give the description and the country of the first such line in input order
(the fields as `parseTSV` delimits them); later lines with that ASN change neither. -/
theorem C5_first_seen_metadata (L : Lib) (r : List Byte) (m : Map)
    (h : OpenReader L r = some (.ok m)) (x : Int)
    (hx : ∃ l ∈ retained (inputLines L r), L.ParseInt (asnField l) = some x) :
    ∃ l0, firstLineOf L (inputLines L r) x = some l0 ∧
      m.ASName x = descField l0 ∧ m.ASCountry x = countryField l0 := by
  obtain ⟨_, hrun⟩ := OpenReader_ok L r m h
  obtain ⟨_, _, _, _, hname, hcountry⟩ := runLines_ok L _ _ _ _ _ hrun
  obtain ⟨l, hl, hax⟩ := hx
  cases hf : firstLineOf L (inputLines L r) x with
  | none =>
    exfalso
    unfold firstLineOf at hf
    rw [List.find?_eq_none] at hf
    have := hf l hl
    simp [hax] at this
  | some l0 =>
    refine ⟨l0, rfl, ?_, ?_⟩
    · have := hname x
      rw [hf] at this
      simp [Map.ASName, this, Map.empty]
    · have := hcountry x
      rw [hf] at this
      simp [Map.ASCountry, this, Map.empty]

theorem C5_first_seen_metadata_witness :
    OpenReader goLib dupInput = some (.ok dupMap) ∧
      ∃ l0, firstLineOf goLib (inputLines goLib dupInput) 13335 = some l0 ∧
        dupMap.ASName 13335 = descField l0 ∧ dupMap.ASCountry 13335 = countryField l0 :=
  ⟨OpenReader_of_loaded goLib dupInput (by decide!),
    C5_first_seen_metadata goLib dupInput dupMap
      (OpenReader_of_loaded goLib dupInput (by decide!)) 13335
      ⟨str "1.1.1.0\t1.1.1.0\t13335\tAU\tANOTHER NAME\n", by decide!, by decide!⟩⟩

/-- The first-seen values on `dupInput`: the second line's `ANOTHER NAME` and `AU` are
ignored. -/
theorem dupMap_metadata :
    dupMap.ASName 13335 = str "CLOUDFLARENET" ∧ dupMap.ASCountry 13335 = str "US" := by
  decide!

/-- C6, as stated, fails twice over. A line marked `Not routed` is dropped before its ASN
and addresses are parsed, so `junkUnrouted` loads although its ASN field is `c` and its
addresses are `a` and `b`. And the rest after the last newline is never parsed, so
`unterminatedInput` loads although its last line `short` has no tab. -/
theorem C6_counterexample :
    (inputLines goLib junkUnrouted = [junkUnrouted] ∧
        goLib.ParseInt (asnField junkUnrouted) = none ∧
        goLib.ParseAddr (startField junkUnrouted) = none ∧
        goLib.ParseAddr (endField junkUnrouted) = none ∧
        (loaded goLib junkUnrouted).isSome = true) ∧
      ((splitLines unterminatedInput).2 = str "short" ∧
        (stripNL (str "short")).count 9 < 4 ∧
        (loaded goLib unterminatedInput).isSome = true) := by
  decide!

/-- C6, amended. If the stream holds a newline-terminated line with fewer than four tabs,
or a newline-terminated line not marked `Not routed` whose ASN field is not an integer or
whose start or end field is not an address, `OpenReader` returns an error and no table. -/
theorem C6_malformed_fails_closed (L : Lib) (r : List Byte)
    (h : ∃ l ∈ inputLines L r, hasFourTabs l = false ∨
      (isNotRouted l = false ∧ (L.ParseInt (asnField l) = none ∨
        L.ParseAddr (startField l) = none ∨ L.ParseAddr (endField l) = none))) :
    ∃ e, OpenReader L r = some (.error e) := by
  apply OpenReader_error_of_bad_line
  obtain ⟨l, hl, hbad⟩ := h
  refine ⟨l, hl, ?_⟩
  rcases hbad with hb | ⟨hn, hb⟩
  · exact Or.inl hb
  · exact Or.inr ⟨hn, (recOfLine_eq_none L l).mpr hb⟩

theorem C6_malformed_fails_closed_witness :
    ∃ e, OpenReader goLib badAsnInput = some (.error e) :=
  C6_malformed_fails_closed goLib badAsnInput
    ⟨badAsnInput, by decide!, Or.inr ⟨by decide!, Or.inl (by decide!)⟩⟩

/-- C10, as stated, fails: the loader stores the two addresses as parsed and never
compares them. `invertedInput` loads, and its one record starts at 1.0.0.9 and ends at
1.0.0.1. -/
theorem C10_counterexample :
    (loaded goLib invertedInput).isSome = true ∧
      invertedMap.recs = [⟨⟨0, 281470698520585, .z4⟩, ⟨0, 281470698520577, .z4⟩, 5⟩] ∧
      ¬ ∀ rc ∈ invertedMap.recs, rc.startIP.le rc.endIP := by
  decide!

/-- C10, amended. On success every record holds the parsed start and end address of its
line, so `startIP <= endIP` holds for every record whenever it holds for the record of
every kept line of the input; the loader itself does not check it. -/
theorem C10_range_invariant (L : Lib) (r : List Byte) (m : Map)
    (h : OpenReader L r = some (.ok m))
    (hin : ∀ l ∈ retained (inputLines L r), ∀ rc, recOfLine L l = some rc →
      rc.startIP.le rc.endIP) :
    ∀ rc ∈ m.recs, rc.startIP.le rc.endIP := by
  intro rc hrc
  have h7 := recs_of_OpenReader L r m h
  have hmem : some rc ∈ (retained (inputLines L r)).map (recOfLine L) := by
    rw [h7]; exact List.mem_map_of_mem _ hrc
  obtain ⟨l, hl, hrec⟩ := List.mem_map.mp hmem
  exact hin l hl rc hrec

theorem C10_range_invariant_witness :
    OpenReader goLib dupInput = some (.ok dupMap) ∧
      ∀ rc ∈ dupMap.recs, rc.startIP.le rc.endIP :=
  ⟨OpenReader_of_loaded goLib dupInput (by decide!),
    C10_range_invariant goLib dupInput dupMap
      (OpenReader_of_loaded goLib dupInput (by decide!))
      (fun l hl rc hrc => of_decide_eq_true
        (forall_recOfLine_of_all goLib _ (fun rc => decide (rc.startIP.le rc.endIP))
          (by decide!) l hl rc hrc))⟩

/-- C4, as stated, fails in four corners. (a) The empty input is rejected by the initial
two-byte peek, and accepted once a `Not routed` line is inserted. (b) A `Not routed` line
longer than the 4096-byte read buffer makes `ReadSlice` fail with `ErrBufferFull`. (c) A
`Not routed` line whose start-address field begins with the bytes `1f 8b`, inserted at the
front, turns a plain input into a gzip-framed one, which the gzip reader rejects. (d) An
input that starts with `1f 8b` is handed to the gzip reader, and is read as plain lines
once a `Not routed` line is inserted in front of it. -/
theorem C4_counterexample :
    (failure goLib [] = some .EOF ∧
        (loaded goLib ([] ++ emptyUnrouted ++ [])).isSome = true) ∧
      ((loaded goLib emptyUnrouted).isSome = true ∧
        hasFourTabs longUnrouted = true ∧ isNotRouted longUnrouted = true ∧
        failure goLib ([] ++ longUnrouted ++ emptyUnrouted) = some .ErrBufferFull) ∧
      (hasFourTabs magicUnrouted = true ∧ isNotRouted magicUnrouted = true ∧
        failure goLib ([] ++ magicUnrouted ++ emptyUnrouted) = some (.reader 1)) ∧
      (failure goLib magicUnrouted = some (.reader 1) ∧
        (loaded goLib ([] ++ emptyUnrouted ++ magicUnrouted)).isSome = true) := by
  decide!

/-- C4, amended. Take an input that is not gzip-framed and has at least two bytes, and
insert at a line position (the front, or just after a newline) one newline-terminated line
that has at least four tabs, whose description is exactly `Not routed`, that fits the read
buffer (at most 4096 bytes, newline included) and that does not make the input start with
the gzip magic. Then `OpenReader` returns the same outcome, the same error or the same
table, whatever the other fields of the line hold; so `ASofIP`, `ASName` and `ASCountry`
answer the same with and without the line. -/
theorem C4_unrouted_lines_vanish (L : Lib) (P S body : List Byte)
    (hP : P = [] ∨ P.getLast? = some 10) (hbody : 10 ∉ body)
    (h4 : hasFourTabs (body ++ [10]) = true) (hn : isNotRouted (body ++ [10]) = true)
    (hfit : (body ++ [10]).length ≤ defaultBufSize)
    (hlen : 2 ≤ (P ++ S).length) (hplain : isGzip (P ++ S) = false)
    (hplain' : isGzip (P ++ (body ++ [10]) ++ S) = false) :
    OpenReader L (P ++ (body ++ [10]) ++ S) = OpenReader L (P ++ S) := by
  have hrest := splitLines_rest_nil P hP
  have hlen' : ¬ (P ++ (body ++ [10]) ++ S).length < 2 := by
    simp only [List.length_append] at hlen ⊢
    omega
  have e1 : splitLines (P ++ (body ++ [10]) ++ S) =
      ((splitLines P).1 ++ (body ++ [10]) :: (splitLines S).1, (splitLines S).2) := by
    rw [List.append_assoc, splitLines_append P _ hrest, splitLines_line body S hbody]
  have e2 : splitLines (P ++ S) = ((splitLines P).1 ++ (splitLines S).1, (splitLines S).2) :=
    splitLines_append P S hrest
  rw [OpenReader_eq, OpenReader_eq]
  congr 1
  unfold OpenReaderLines
  have hlen2 : ¬ (P ++ S).length < 2 := by omega
  have g1 : ¬ isGzip (P ++ (body ++ [10]) ++ S) = true := by rw [hplain']; decide
  have g2 : ¬ isGzip (P ++ S) = true := by rw [hplain]; decide
  rw [if_neg hlen', if_neg hlen2, if_neg g1, if_neg g2, e1, e2]
  exact runLines_insert L (body ++ [10]) hfit h4 hn _ _ _ _ _

theorem C4_unrouted_lines_vanish_witness :
    subsetLine6Body ++ [10] = subsetLine6 ∧
      OpenReader goLib (subsetLine1 ++ (subsetLine6Body ++ [10]) ++ subsetLine7) =
        OpenReader goLib (subsetLine1 ++ subsetLine7) ∧
      netipParseAddr (str "1.0.17.1") = some ⟨0, 281470698524929, .z4⟩ ∧
      subsetMap.ASofIP ⟨0, 281470698524929, .z4⟩ = some 0 :=
  ⟨by decide!,
    C4_unrouted_lines_vanish goLib subsetLine1 subsetLine7 subsetLine6Body
      (Or.inr (by decide!)) (by decide!) (by decide!) (by decide!) (by decide!) (by decide!)
      (by decide!) (by decide!),
    by decide!, by decide!⟩

/-! ## Lookup on any table -/

theorem ASofIP_eq_recIndexHasIP (m : Map) (a : Addr) :
    m.ASofIP a = m.recIndexHasIP ((cand m a : Int) - 1) a := rfl

/-- The index found by `sort.Search` in `ASofIP`: it is at most `len(recs)`, the record
just before it does not start after the address, and the lookup is decided by that record's
`endIP` alone. -/
theorem cand_spec (m : Map) (a : Addr) :
    cand m a ≤ m.recs.length ∧
      (∀ h : cand m a - 1 < m.recs.length, 0 < cand m a →
        a.Less (m.recs.get ⟨cand m a - 1, h⟩).startIP = false) ∧
      m.ASofIP a = recIndexHasIPNoStart m ((cand m a : Int) - 1) a ∧
      ∃ v, m.ASofIP a = some v := by
  obtain ⟨h1, h2, _⟩ := Search_spec m.recs.length (fun i => a.Less (m.recs.get i).startIP)
  have hdef := ASofIP_eq_recIndexHasIP m a
  unfold cand at hdef ⊢
  generalize Search m.recs.length (fun i => a.Less (m.recs.get i).startIP) = c at h1 h2 hdef
  refine ⟨h1, h2, ?_⟩
  rw [hdef]
  unfold Map.recIndexHasIP recIndexHasIPNoStart
  by_cases hc : c = 0
  · subst hc
    exact ⟨rfl, 0, rfl⟩
  · have hpos : 0 < c := by omega
    have hlt : c - 1 < m.recs.length := by omega
    have hf := h2 hlt hpos
    have hi : ¬ ((c : Int) - 1 < 0) := by omega
    have ht : ((c : Int) - 1).toNat = c - 1 := by omega
    rw [if_neg hi, if_neg hi, ht, List.getElem?_eq_getElem hlt]
    simp only [List.get_eq_getElem] at hf
    simp only []
    by_cases he : (m.recs[c - 1]).endIP.Less a = true
    · rw [if_pos he, if_pos he]
      exact ⟨rfl, 0, rfl⟩
    · rw [if_neg he, if_neg he, if_neg (by simp [hf])]
      exact ⟨rfl, _, rfl⟩

/-- C11. Lookup never fails, on any table and any address: the index `cand - 1` handed to
`recIndexHasIP` is -1 or a valid index of `recs`, so `ASofIP` returns a value (no index is
out of range), and on an empty table that value is 0. The predicate given to `sort.Search`
is only ever defined on valid indices. -/
theorem C11_query_never_fails (m : Map) (a : Addr) (asName asCountry : Int → Option (List Byte)) :
    ((cand m a : Int) - 1 = -1 ∨ (0 ≤ (cand m a : Int) - 1 ∧ (cand m a : Int) - 1 < m.recs.length)) ∧
      m.ASofIP a = m.recIndexHasIP ((cand m a : Int) - 1) a ∧
      (∃ v, m.ASofIP a = some v) ∧
      (Map.ASofIP ⟨asName, asCountry, []⟩ a = some 0) := by
  obtain ⟨h1, _, _, hv⟩ := cand_spec m a
  refine ⟨by omega, rfl, hv, rfl⟩

/-- C18. Lookup is sound on any table, sorted or not: a non-zero result is the ASN of a
record of the table that holds the address. -/
theorem C18_lookup_sound (m : Map) (a : Addr) (v : Int) (h : m.ASofIP a = some v)
    (hv : v ≠ 0) : ∃ r ∈ m.recs, r.asn = v ∧ r.startIP.le a ∧ a.le r.endIP := by
  rcases ASofIP_sound m a with h0 | ⟨r, hr, hc, hr2⟩
  · rw [h0] at h
    exact absurd (Option.some.inj h).symm hv
  · rw [hr2] at h
    exact ⟨r, hr, Option.some.inj h, hc.1, hc.2⟩

theorem C18_lookup_sound_witness :
    subsetMap.ASofIP ⟨0, 281470698537216, .z4⟩ = some 18144 ∧
      ∃ r ∈ subsetMap.recs, r.asn = 18144 ∧
        r.startIP.le ⟨0, 281470698537216, .z4⟩ ∧ Addr.le ⟨0, 281470698537216, .z4⟩ r.endIP :=
  ⟨by decide!, C18_lookup_sound subsetMap ⟨0, 281470698537216, .z4⟩ 18144 (by decide!)
    (by decide)⟩

/-- C19. The check `ip.Less(rec.startIP)` of `recIndexHasIP` never fires when called from
`ASofIP`, on any table: when the index `cand` found by the binary search is positive, the
address is not less than `recs[cand-1].startIP`, and `ASofIP` returns what `recIndexHasIP`
returns with that check removed. -/
theorem C19_start_check_unreachable (m : Map) (a : Addr) :
    (∀ h : cand m a - 1 < m.recs.length, 0 < cand m a →
        a.Less (m.recs.get ⟨cand m a - 1, h⟩).startIP = false) ∧
      m.ASofIP a = recIndexHasIPNoStart m ((cand m a : Int) - 1) a := by
  obtain ⟨_, h2, h3, _⟩ := cand_spec m a
  exact ⟨h2, h3⟩

/-! ## The loader: metadata, the initial peek, unsorted input -/

/-- C12. Unsorted input is not detected. The two lines of `unsortedInput` are well-formed
and in descending order of start address; `OpenReader` loads them without error, in that
order; the first record, ASN 2, holds 1.0.1.5, and `ASofIP` answers 0 for it. -/
theorem C12_unsorted_not_detected :
    ∃ input m r a, OpenReader goLib input = some (.ok m) ∧
      (∀ l ∈ inputLines goLib input, hasFourTabs l = true ∧ (recOfLine goLib l).isSome = true) ∧
      ¬ SortedByStart m.recs ∧
      r ∈ m.recs ∧ r.startIP.le a ∧ a.le r.endIP ∧ m.ASofIP a ≠ some r.asn :=
  ⟨unsortedInput, unsortedMap, ⟨⟨0, 281470698520832, .z4⟩, ⟨0, 281470698521087, .z4⟩, 2⟩,
    ⟨0, 281470698520837, .z4⟩, OpenReader_of_loaded goLib unsortedInput (by decide!),
    by decide!, by decide!, by decide!, by decide!, by decide!, by decide!⟩

/-- On success the metadata maps hold, for each ASN, the description and the country of the
first kept line with that ASN, and nothing for any other ASN. -/
theorem metadata_of_OpenReader (L : Lib) (r : List Byte) (m : Map)
    (h : OpenReader L r = some (.ok m)) (x : Int) :
    m.asName x = (firstLineOf L (inputLines L r) x).map descField ∧
      m.asCountry x = (firstLineOf L (inputLines L r) x).map countryField := by
  obtain ⟨_, hrun⟩ := OpenReader_ok L r m h
  obtain ⟨_, _, _, _, hname, hcountry⟩ := runLines_ok L _ _ _ _ _ hrun
  refine ⟨by simpa [Map.empty] using hname x, ?_⟩
  have := hcountry x
  cases hf : firstLineOf L (inputLines L r) x with
  | none => rw [hf] at this; simpa [Map.empty] using this
  | some l => rw [hf] at this; simpa [Map.empty] using this

theorem firstLineOf_eq_none (L : Lib) (ls : List (List Byte)) (x : Int) :
    firstLineOf L ls x = none ↔ ∀ l ∈ retained ls, L.ParseInt (asnField l) ≠ some x := by
  unfold firstLineOf
  rw [List.find?_eq_none]
  simp

/-- C13. On success, an integer that is not the parsed ASN of any kept line has no
metadata: `ASName` and `ASCountry` return the empty string for it. -/
theorem C13_unknown_asn_empty (L : Lib) (r : List Byte) (m : Map)
    (h : OpenReader L r = some (.ok m)) (x : Int)
    (hx : ∀ l ∈ retained (inputLines L r), L.ParseInt (asnField l) ≠ some x) :
    m.ASName x = [] ∧ m.ASCountry x = [] := by
  obtain ⟨h1, h2⟩ := metadata_of_OpenReader L r m h x
  have hf := (firstLineOf_eq_none L (inputLines L r) x).mpr hx
  rw [hf] at h1 h2
  simp [Map.ASName, Map.ASCountry, h1, h2]

theorem C13_unknown_asn_empty_witness :
    OpenReader goLib subset = some (.ok subsetMap) ∧
      (∃ l ∈ inputLines goLib subset, goLib.ParseInt (asnField l) = some 0) ∧
      subsetMap.ASName 0 = [] ∧ subsetMap.ASCountry 0 = [] := by
  have h : OpenReader goLib subset = some (.ok subsetMap) := by
    have := OpenReader_of_loaded goLib subset subsetMap_recs.1
    unfold subsetMap
    exact this
  exact ⟨h, by decide!, C13_unknown_asn_empty goLib subset subsetMap h 0 (by decide!)⟩

/-- C14. An input of fewer than two bytes fails at the initial `Peek(2)` with `io.EOF`:
`OpenReader` returns that error and no table, whatever the bytes are and whatever the
parsers would say, no line being read. -/
theorem C14_initial_peek_failure (L : Lib) (r : List Byte) (h : r.length < 2) :
    OpenReader L r = some (.error .EOF) := by
  unfold OpenReader Reader.Peek
  simp only []
  rw [if_neg (by omega)]

theorem C14_initial_peek_failure_witness :
    OpenReader goLib [] = some (.error .EOF) ∧ OpenReader goLib [10] = some (.error .EOF) :=
  ⟨C14_initial_peek_failure goLib [] (by decide),
    C14_initial_peek_failure goLib [10] (by decide)⟩

/-- C20. On success the two metadata maps have the same keys, and these are exactly the
ASNs that occur in `recs`: no ASN has a description without a country or the reverse, and
every ASN of a stored record has an entry in both maps. -/
theorem C20_metadata_keys (L : Lib) (r : List Byte) (m : Map)
    (h : OpenReader L r = some (.ok m)) (x : Int) :
    ((m.asName x).isSome = true ↔ ∃ rc ∈ m.recs, rc.asn = x) ∧
      ((m.asCountry x).isSome = true ↔ ∃ rc ∈ m.recs, rc.asn = x) ∧
      ((m.asName x).isSome = (m.asCountry x).isSome) := by
  obtain ⟨h1, h2⟩ := metadata_of_OpenReader L r m h x
  have hrecs := recs_of_OpenReader L r m h
  have key : (firstLineOf L (inputLines L r) x).isSome = true ↔ ∃ rc ∈ m.recs, rc.asn = x := by
    constructor
    · intro hs
      obtain ⟨l, hl⟩ := Option.isSome_iff_exists.mp hs
      unfold firstLineOf at hl
      have hmem := List.mem_of_find?_eq_some hl
      have hp := List.find?_some hl
      have hasn : L.ParseInt (asnField l) = some x := by simpa using hp
      have hm : recOfLine L l ∈ m.recs.map some := by
        rw [← hrecs]; exact List.mem_map_of_mem _ hmem
      obtain ⟨rc, hrc, hrc2⟩ := List.mem_map.mp hm
      have := (recOfLine_eq_some L l rc hrc2.symm).2.2
      rw [hasn] at this
      exact ⟨rc, hrc, (Option.some.inj this).symm⟩
    · rintro ⟨rc, hrc, rfl⟩
      have hm : some rc ∈ (retained (inputLines L r)).map (recOfLine L) := by
        rw [hrecs]; exact List.mem_map_of_mem _ hrc
      obtain ⟨l, hl, hl2⟩ := List.mem_map.mp hm
      have hasn := (recOfLine_eq_some L l rc hl2).2.2
      cases hf : firstLineOf L (inputLines L r) rc.asn with
      | some l0 => rfl
      | none =>
        exact absurd hasn ((firstLineOf_eq_none L _ _).mp hf l hl)
  have e1 : (m.asName x).isSome = (firstLineOf L (inputLines L r) x).isSome := by
    rw [h1, Option.isSome_map']
  have e2 : (m.asCountry x).isSome = (firstLineOf L (inputLines L r) x).isSome := by
    rw [h2, Option.isSome_map']
  rw [e1, e2]
  exact ⟨key, key, rfl⟩

theorem C20_metadata_keys_witness :
    OpenReader goLib dupInput = some (.ok dupMap) ∧
      ((dupMap.asName 13335).isSome = true ↔ ∃ rc ∈ dupMap.recs, rc.asn = 13335) ∧
      ((dupMap.asCountry 13335).isSome = true ↔ ∃ rc ∈ dupMap.recs, rc.asn = 13335) ∧
      ((dupMap.asName 13335).isSome = (dupMap.asCountry 13335).isSome) :=
  ⟨OpenReader_of_loaded goLib dupInput (by decide!),
    C20_metadata_keys goLib dupInput dupMap
      (OpenReader_of_loaded goLib dupInput (by decide!)) 13335⟩

/-! ## parseTSV: the positional split -/

theorem dropFields_nil (k : Nat) : dropFields k [] = [] := by
  cases k <;> simp [dropFields, IndexByte]

theorem dropFields_succ (k : Nat) (l : List Byte) :
    dropFields (k + 1) l = dropFields k (dropFields 1 l) := by
  cases hi : IndexByte l 9 with
  | none => simp [dropFields, hi, dropFields_nil]
  | some i => simp [dropFields, hi]

theorem field_succ (k : Nat) (l : List Byte) : field (k + 1) l = field k (dropFields 1 l) := by
  unfold field
  rw [dropFields_succ]

/-- A line with a tab is its first field, the tab, and the rest; the field holds no tab and
the rest has one tab less. -/
theorem split_first_field (l : List Byte) (h : 1 ≤ l.count 9) :
    l = field 0 l ++ 9 :: dropFields 1 l ∧ 9 ∉ field 0 l ∧
      (dropFields 1 l).count 9 + 1 = l.count 9 := by
  cases hi : IndexByte l 9 with
  | none =>
    have := List.count_eq_zero.mpr ((IndexByte_eq_none l 9).mp hi)
    omega
  | some i =>
    obtain ⟨_, h2, h3, _, h5⟩ := IndexByte_eq_some l 9 i hi
    have hd : dropFields 1 l = l.drop (i + 1) := by simp [dropFields, hi]
    rw [field_zero_of_some l i hi, hd]
    refine ⟨?_, h2, h5.symm⟩
    have := List.take_append_drop (i + 1) l
    rw [h3] at this
    simpa using this.symm

theorem stripNL_append (line : List Byte) :
    ∃ nl, line = stripNL line ++ nl := by
  unfold stripNL
  by_cases h : line.getLast? = some 10
  · rw [if_pos h]
    exact ⟨[10], (List.dropLast_append_getLast? 10 h).symm⟩
  · rw [if_neg h]
    exact ⟨[], by simp⟩

/-- C16. For every line with at least four tabs, `parseTSV` with five destinations stores in
the first four the bytes between consecutive tabs: none of the four holds a tab, and the
line (one trailing newline removed) is field 1, tab, field 2, tab, field 3, tab, field 4,
tab, followed by the rest after the fourth tab; so the four fields with their tabs are a
prefix of the line. -/
theorem C16_positional_split (line : List Byte) (h : 4 ≤ (stripNL line).count 9) :
    ∃ f1 f2 f3 f4 d, parseTSV line 5 = .ok [f1, f2, f3, f4, d] ∧
      9 ∉ f1 ∧ 9 ∉ f2 ∧ 9 ∉ f3 ∧ 9 ∉ f4 ∧
      stripNL line =
        f1 ++ 9 :: (f2 ++ 9 :: (f3 ++ 9 :: (f4 ++ 9 :: dropFields 4 (stripNL line)))) ∧
      ∃ rest, line = f1 ++ 9 :: (f2 ++ 9 :: (f3 ++ 9 :: (f4 ++ 9 :: rest))) := by
  obtain ⟨a1, a2, a3⟩ := split_first_field (stripNL line) (by omega)
  obtain ⟨b1, b2, b3⟩ := split_first_field (dropFields 1 (stripNL line)) (by omega)
  obtain ⟨c1, c2, c3⟩ := split_first_field (dropFields 1 (dropFields 1 (stripNL line))) (by omega)
  obtain ⟨d1, d2, _⟩ :=
    split_first_field (dropFields 1 (dropFields 1 (dropFields 1 (stripNL line)))) (by omega)
  have e1 : field 1 (stripNL line) = field 0 (dropFields 1 (stripNL line)) := field_succ 0 _
  have e2 : field 2 (stripNL line) = field 0 (dropFields 1 (dropFields 1 (stripNL line))) := by
    rw [field_succ, field_succ]
  have e3 : field 3 (stripNL line) =
      field 0 (dropFields 1 (dropFields 1 (dropFields 1 (stripNL line)))) := by
    rw [field_succ, field_succ, field_succ]
  have e4 : dropFields 4 (stripNL line) =
      dropFields 1 (dropFields 1 (dropFields 1 (dropFields 1 (stripNL line)))) := by
    rw [dropFields_succ, dropFields_succ, dropFields_succ]
  have hdec : stripNL line = field 0 (stripNL line) ++ 9 :: (field 1 (stripNL line) ++
      9 :: (field 2 (stripNL line) ++ 9 :: (field 3 (stripNL line) ++
        9 :: dropFields 4 (stripNL line)))) := by
    rw [e1, e2, e3, e4, ← d1, ← c1, ← b1, ← a1]
  refine ⟨_, _, _, _, _, parseTSV_ok line h, a2, ?_, ?_, ?_, hdec, ?_⟩
  · rw [e1]; exact b2
  · rw [e2]; exact c2
  · rw [e3]; exact d2
  · obtain ⟨nl, hnl⟩ := stripNL_append line
    refine ⟨dropFields 4 (stripNL line) ++ nl, ?_⟩
    have : line = (field 0 (stripNL line) ++ 9 :: (field 1 (stripNL line) ++
      9 :: (field 2 (stripNL line) ++ 9 :: (field 3 (stripNL line) ++
        9 :: dropFields 4 (stripNL line))))) ++ nl := by
      rw [← hdec]; exact hnl
    simpa using this

theorem C16_positional_split_witness :
    ∃ f1 f2 f3 f4 d, parseTSV subsetLine7 5 = .ok [f1, f2, f3, f4, d] ∧
      9 ∉ f1 ∧ 9 ∉ f2 ∧ 9 ∉ f3 ∧ 9 ∉ f4 ∧
      stripNL subsetLine7 =
        f1 ++ 9 :: (f2 ++ 9 :: (f3 ++ 9 :: (f4 ++ 9 :: dropFields 4 (stripNL subsetLine7)))) ∧
      ∃ rest, subsetLine7 = f1 ++ 9 :: (f2 ++ 9 :: (f3 ++ 9 :: (f4 ++ 9 :: rest))) :=
  C16_positional_split subsetLine7 (by decide!)

/-- The fields `parseTSV` stores for the seventh line of the test's `subset`. -/
theorem parseTSV_subsetLine7 :
    parseTSV subsetLine7 5 = .ok [str "1.0.64.0", str "1.0.127.255", str "18144", str "JP",
      str "AS-ENECOM Energia Communications,Inc."] := by
  decide!

/-! ## ParseInt and base-10 integers -/

theorem parseDigits_eq (ds : List Byte) (acc : Nat) :
    parseDigits ds acc =
      if ds.all (fun d => decide (48 ≤ d ∧ d ≤ 57)) = true
      then some (ds.foldl (fun acc d => acc * 10 + (d - 48)) acc) else none := by
  induction ds generalizing acc with
  | nil => simp [parseDigits]
  | cons c cs ih =>
    unfold parseDigits
    by_cases hc : 48 ≤ c ∧ c ≤ 57
    · rw [if_pos hc, ih]
      simp [hc]
    · rw [if_neg hc]
      simp only [List.all_cons, Bool.and_eq_true, decide_eq_true_eq]
      rw [if_neg (fun h => hc h.1)]

/-- What `strconv.ParseInt(s, 10, 64)` rejects: text that is not a base-10 integer, and
base-10 integers outside the int64 range; what it accepts it returns at its value. -/
theorem strconvParseInt_spec (s : List Byte) :
    (strconvParseInt s = none ↔
      isBase10Integer s = false ∨ base10Value s < -(2 ^ 63) ∨ 2 ^ 63 ≤ base10Value s) ∧
    (∀ v, strconvParseInt s = some v → v = base10Value s) := by
  cases s with
  | nil => simp [strconvParseInt, isBase10Integer]
  | cons c t =>
    unfold strconvParseInt isBase10Integer base10Value
    simp only []
    generalize (if c = 43 ∨ c = 45 then t else c :: t) = ds
    by_cases hnil : ds = []
    · subst hnil
      simp
    · rw [if_neg hnil, parseDigits_eq]
      have hemp : ds.isEmpty = false := by
        cases ds with
        | nil => exact absurd rfl hnil
        | cons _ _ => rfl
      by_cases hall : ds.all (fun d => decide (48 ≤ d ∧ d ≤ 57)) = true
      · rw [if_pos hall]
        generalize ds.foldl (fun acc d => acc * 10 + (d - 48)) 0 = n
        simp only [hemp, hall, Bool.not_false, Bool.and_self, Bool.true_eq_false, false_or]
        by_cases hneg : c = 45
        · simp only [hneg, decide_True, Bool.not_true, Bool.false_and, Bool.true_and,
            decide_eq_true_eq, if_true, Bool.false_eq_true, if_false]
          by_cases hr : 2 ^ 63 < n
          · rw [if_pos hr]
            refine ⟨iff_of_true rfl (Or.inl ?_), fun v hv => by cases hv⟩
            have : ((2 ^ 63 : Nat) : Int) < (n : Int) := by exact_mod_cast hr
            push_cast at this
            omega
          · rw [if_neg hr]
            refine ⟨iff_of_false (by simp) ?_, fun v hv => (Option.some.inj hv).symm⟩
            have : (n : Int) ≤ ((2 ^ 63 : Nat) : Int) := by exact_mod_cast Nat.le_of_not_lt hr
            push_cast at this
            omega
        · simp only [hneg, decide_False, Bool.not_false, Bool.true_and, Bool.false_and,
            decide_eq_true_eq, if_false, Bool.false_eq_true]
          by_cases hr : 2 ^ 63 ≤ n
          · rw [if_pos hr]
            refine ⟨iff_of_true rfl (Or.inr ?_), fun v hv => by cases hv⟩
            have : ((2 ^ 63 : Nat) : Int) ≤ (n : Int) := by exact_mod_cast hr
            push_cast at this
            omega
          · rw [if_neg hr]
            refine ⟨iff_of_false (by simp) ?_, fun v hv => (Option.some.inj hv).symm⟩
            have : (n : Int) < ((2 ^ 63 : Nat) : Int) := by exact_mod_cast Nat.lt_of_not_le hr
            push_cast at this
            omega
      · rw [if_neg hall]
        have hall' : ds.all (fun d => decide (48 ≤ d ∧ d ≤ 57)) = false :=
          Bool.eq_false_iff.mpr hall
        refine ⟨iff_of_true rfl (Or.inl ?_), fun v hv => by cases hv⟩
        rw [hemp, hall']
        rfl

/-! ## The loader: exact failure condition, the unterminated rest -/

/-- A run over lines that all fit the buffer and are all well-formed, ending on a rest that
fits and a clean end of the source, returns a table. -/
theorem runLines_ok_of_good (L : Lib) : ∀ (ls : List (List Byte)) (rest : List Byte) (m : Map),
    (∀ l ∈ ls, l.length ≤ defaultBufSize ∧ hasFourTabs l = true ∧
      (isNotRouted l = false → recOfLine L l ≠ none)) →
    rest.length < defaultBufSize →
    ∃ m', runLines L ls rest .EOF m = .ok m' := by
  intro ls
  induction ls with
  | nil =>
    intro rest m _ hrest
    refine ⟨m, ?_⟩
    unfold runLines finish
    rw [if_neg (by omega), if_pos rfl]
  | cons l ls ih =>
    intro rest m hgood hrest
    obtain ⟨hfit, h4, hrec⟩ := hgood l (List.mem_cons_self _ _)
    have hgood' : ∀ l' ∈ ls, l'.length ≤ defaultBufSize ∧ hasFourTabs l' = true ∧
        (isNotRouted l' = false → recOfLine L l' ≠ none) :=
      fun l' hl' => hgood l' (List.mem_cons_of_mem _ hl')
    unfold runLines
    rw [if_neg (by omega)]
    cases hn : isNotRouted l with
    | true =>
      rw [processLine_notRouted L l m h4 hn]
      exact ih rest m hgood' hrest
    | false =>
      rw [processLine_retained L l m h4 hn]
      have hne := hrec hn
      rw [Ne, recOfLine_eq_none] at hne
      cases hA : L.ParseInt (asnField l) with
      | none => exact absurd (Or.inl hA) hne
      | some as =>
        cases hS : L.ParseAddr (startField l) with
        | none => exact absurd (Or.inr (Or.inl hS)) hne
        | some s =>
          cases hE : L.ParseAddr (endField l) with
          | none => exact absurd (Or.inr (Or.inr hE)) hne
          | some e => exact ih rest _ hgood' hrest

theorem OpenReader_plain (L : Lib) (r : List Byte) (hplain : isGzip r = false)
    (hlen : 2 ≤ r.length) :
    OpenReader L r = some (runLines L (splitLines r).1 (splitLines r).2 .EOF Map.empty) := by
  rw [OpenReader_eq]
  unfold OpenReaderLines
  rw [if_neg (by omega), if_neg (by rw [hplain]; decide)]

/-- C15, as stated, fails: a base-10 integer outside the int64 range is rejected by
`ParseInt(., 10, 64)`. The one line of `overflowAsnInput` is plain, fits the buffer, has
four tabs, two valid addresses, a description other than `Not routed` and the ASN field
`9223372036854775808`, a base-10 integer; `OpenReader` returns `bogus ASN` all the same. -/
theorem C15_counterexample :
    isGzip overflowAsnInput = false ∧ 2 ≤ overflowAsnInput.length ∧
      (∀ l ∈ (splitLines overflowAsnInput).1, l.length ≤ defaultBufSize) ∧
      (splitLines overflowAsnInput).2.length < defaultBufSize ∧
      (∀ l ∈ (splitLines overflowAsnInput).1, hasFourTabs l = true ∧
        isNotRouted l = false ∧ isBase10Integer (asnField l) = true ∧
        base10Value (asnField l) = 9223372036854775808 ∧
        (goLib.ParseAddr (startField l)).isSome = true ∧
        (goLib.ParseAddr (endField l)).isSome = true) ∧
      failure goLib overflowAsnInput =
        some (.bogusASN (str "9223372036854775808") overflowAsnInput) := by
  decide!

/-- C15, amended. For every plain input of at least two bytes whose lines fit the read
buffer (each newline-terminated line is at most 4096 bytes with its newline, the rest after
the last newline is shorter than 4096 bytes), `OpenReader` returns an error and no table if
and only if some newline-terminated line has fewer than four tabs, or is not marked
`Not routed` and has an ASN field `ParseInt(., 10, 64)` rejects or a start or end field
`ParseAddr` rejects; it returns a table and no error if and only if there is no such line.
And the ASN fields strconv's `ParseInt(., 10, 64)` rejects are those that are not a base-10
integer together with the base-10 integers outside the int64 range. -/
theorem C15_exact_failure_condition (L : Lib) (r : List Byte) (hplain : isGzip r = false)
    (hlen : 2 ≤ r.length) (hfit : ∀ l ∈ (splitLines r).1, l.length ≤ defaultBufSize)
    (hrest : (splitLines r).2.length < defaultBufSize) :
    ((∃ e, OpenReader L r = some (.error e)) ↔
      ∃ l ∈ (splitLines r).1, hasFourTabs l = false ∨
        (isNotRouted l = false ∧ (L.ParseInt (asnField l) = none ∨
          L.ParseAddr (startField l) = none ∨ L.ParseAddr (endField l) = none))) ∧
    ((∃ m, OpenReader L r = some (.ok m)) ↔
      ¬ ∃ l ∈ (splitLines r).1, hasFourTabs l = false ∨
        (isNotRouted l = false ∧ (L.ParseInt (asnField l) = none ∨
          L.ParseAddr (startField l) = none ∨ L.ParseAddr (endField l) = none))) ∧
    (∀ s, goLib.ParseInt s = none ↔
      isBase10Integer s = false ∨ base10Value s < -(2 ^ 63) ∨ 2 ^ 63 ≤ base10Value s) := by
  have hopen := OpenReader_plain L r hplain hlen
  have hbad : (∃ l ∈ (splitLines r).1, hasFourTabs l = false ∨
        (isNotRouted l = false ∧ (L.ParseInt (asnField l) = none ∨
          L.ParseAddr (startField l) = none ∨ L.ParseAddr (endField l) = none))) →
      ∃ e, OpenReader L r = some (.error e) := by
    rintro ⟨l, hl, hb⟩
    rw [hopen]
    have : ∃ l ∈ (splitLines r).1,
        hasFourTabs l = false ∨ (isNotRouted l = false ∧ recOfLine L l = none) := by
      refine ⟨l, hl, ?_⟩
      rcases hb with hb | ⟨hn, hb⟩
      · exact Or.inl hb
      · exact Or.inr ⟨hn, (recOfLine_eq_none L l).mpr hb⟩
    obtain ⟨e, he⟩ := runLines_error L _ (splitLines r).2 .EOF Map.empty this
    exact ⟨e, by rw [he]⟩
  have hgood : (¬ ∃ l ∈ (splitLines r).1, hasFourTabs l = false ∨
        (isNotRouted l = false ∧ (L.ParseInt (asnField l) = none ∨
          L.ParseAddr (startField l) = none ∨ L.ParseAddr (endField l) = none))) →
      ∃ m, OpenReader L r = some (.ok m) := by
    intro hno
    rw [hopen]
    have : ∀ l ∈ (splitLines r).1, l.length ≤ defaultBufSize ∧ hasFourTabs l = true ∧
        (isNotRouted l = false → recOfLine L l ≠ none) := by
      intro l hl
      refine ⟨hfit l hl, ?_, ?_⟩
      · cases h4 : hasFourTabs l with
        | true => rfl
        | false => exact absurd ⟨l, hl, Or.inl h4⟩ hno
      · intro hn hnone
        exact hno ⟨l, hl, Or.inr ⟨hn, (recOfLine_eq_none L l).mp hnone⟩⟩
    obtain ⟨m, hm⟩ := runLines_ok_of_good L _ (splitLines r).2 Map.empty this hrest
    exact ⟨m, by rw [hm]⟩
  refine ⟨⟨?_, hbad⟩, ⟨?_, hgood⟩, fun s => (strconvParseInt_spec s).1⟩
  · rintro ⟨e, he⟩
    by_contra hno
    obtain ⟨m, hm⟩ := hgood hno
    rw [hm] at he
    cases he
  · rintro ⟨m, hm⟩ hb
    obtain ⟨e, he⟩ := hbad hb
    rw [he] at hm
    cases hm

theorem C15_exact_failure_condition_witness :
    ((∃ e, OpenReader goLib badAsnInput = some (.error e)) ↔
      ∃ l ∈ (splitLines badAsnInput).1, hasFourTabs l = false ∨
        (isNotRouted l = false ∧ (goLib.ParseInt (asnField l) = none ∨
          goLib.ParseAddr (startField l) = none ∨ goLib.ParseAddr (endField l) = none))) ∧
    ((∃ m, OpenReader goLib badAsnInput = some (.ok m)) ↔
      ¬ ∃ l ∈ (splitLines badAsnInput).1, hasFourTabs l = false ∨
        (isNotRouted l = false ∧ (goLib.ParseInt (asnField l) = none ∨
          goLib.ParseAddr (startField l) = none ∨ goLib.ParseAddr (endField l) = none))) ∧
    (∀ s, goLib.ParseInt s = none ↔
      isBase10Integer s = false ∨ base10Value s < -(2 ^ 63) ∨ 2 ^ 63 ≤ base10Value s) :=
  C15_exact_failure_condition goLib badAsnInput (by decide!) (by decide!) (by decide!)
    (by decide!)

/-- C17, as stated, fails: an unterminated final segment of 4096 bytes or more fills the
read buffer, and `ReadSlice` answers `ErrBufferFull`, not `io.EOF`. The one line of
`emptyUnrouted` loads alone, and the load fails once the 5000 bytes of `longTail`, with no
newline among them, follow it. -/
theorem C17_counterexample :
    emptyUnrouted.getLast? = some 10 ∧ longTail ≠ [] ∧ 10 ∉ longTail ∧
      isGzip (emptyUnrouted ++ longTail) = false ∧ 2 ≤ (emptyUnrouted ++ longTail).length ∧
      (loaded goLib emptyUnrouted).isSome = true ∧
      failure goLib (emptyUnrouted ++ longTail) = some .ErrBufferFull := by
  decide!

/-- C17, amended. For every plain input of at least two bytes of the form `P ++ T`, where
`P` is empty or ends in a newline and `T` holds no newline and is shorter than the read
buffer (fewer than 4096 bytes), `OpenReader` returns the outcome of processing the lines of
`P` alone, which is what it returns on `P` itself when `P` has at least two bytes: `T` is
neither parsed nor validated and adds no record, no metadata and no error. -/
theorem C17_unterminated_rest_ignored (L : Lib) (P T : List Byte)
    (hP : P = [] ∨ P.getLast? = some 10) (hT : 10 ∉ T) (hfit : T.length < defaultBufSize)
    (hlen : 2 ≤ (P ++ T).length) (hplain : isGzip (P ++ T) = false) :
    OpenReader L (P ++ T) = some (runLines L (splitLines P).1 [] .EOF Map.empty) ∧
      (2 ≤ P.length → OpenReader L (P ++ T) = OpenReader L P) := by
  have hrest := splitLines_rest_nil P hP
  have hTs : splitLines T = ([], T) := splitLines_of_none T ((IndexByte_eq_none T 10).mpr hT)
  have e1 : splitLines (P ++ T) = ((splitLines P).1, T) := by
    rw [splitLines_append P T hrest, hTs]; simp
  have hopen := OpenReader_plain L (P ++ T) hplain hlen
  rw [e1] at hopen
  have hrun : ∀ (ls : List (List Byte)) (m : Map),
      runLines L ls T .EOF m = runLines L ls [] .EOF m := by
    intro ls
    induction ls with
    | nil =>
      intro m
      unfold runLines finish
      rw [if_neg (show ¬ defaultBufSize ≤ T.length by omega),
        if_neg (show ¬ defaultBufSize ≤ ([] : List Byte).length by simp [defaultBufSize])]
    | cons l ls ih =>
      intro m
      unfold runLines
      by_cases hbig : defaultBufSize < l.length
      · rw [if_pos hbig, if_pos hbig]
      · rw [if_neg hbig, if_neg hbig]
        cases processLine L l m with
        | error err => rfl
        | ok m1 => exact ih m1
  have h1 : OpenReader L (P ++ T) = some (runLines L (splitLines P).1 [] .EOF Map.empty) := by
    rw [hopen, hrun]
  refine ⟨h1, ?_⟩
  intro hP2
  have hplainP : isGzip P = false := by
    have : (P ++ T).take 2 = P.take 2 := by
      rw [List.take_append_of_le_length hP2]
    unfold isGzip at hplain ⊢
    rw [this] at hplain
    exact hplain
  rw [h1, OpenReader_plain L P hplainP hP2, hrest]

theorem C17_unterminated_rest_ignored_witness :
    OpenReader goLib (subsetLine1 ++ str "short") =
        some (runLines goLib (splitLines subsetLine1).1 [] .EOF Map.empty) ∧
      (2 ≤ subsetLine1.length →
        OpenReader goLib (subsetLine1 ++ str "short") = OpenReader goLib subsetLine1) :=
  C17_unterminated_rest_ignored goLib subsetLine1 (str "short") (Or.inr (by decide!))
    (by decide!) (by decide!) (by decide!) (by decide!)

end ip2asn
